import Mathlib

/-!
Verification of the Trespasser puzzle core: geometry kernel, solvability
oracle, evolutionary generators and difficulty analyzer.

JavaScript numbers are modelled as exact rationals (exact reals where
trigonometry is involved).  The JS `%` operator is the remainder with the
sign of the dividend, `Math.floor` is `Int.floor`, and `Math.round x` is
`⌊x + 1/2⌋` (JS rounds half toward positive infinity).  Sources of
randomness (`Math.random()`) are modelled as an explicit stream of
rationals consumed one value per call; loops whose termination depends on
the random stream carry explicit fuel and return `Option`.
-/

set_option maxRecDepth 8000

namespace Trespasser

/-- JS truncation toward zero (used by the `%` operator). -/
def jsTrunc (x : ℚ) : ℤ := if 0 ≤ x then ⌊x⌋ else ⌈x⌉

/-- JS `%` on numbers: remainder with the sign of the dividend. -/
def jsModQ (a b : ℚ) : ℚ := a - b * jsTrunc (a / b)

/-- JS `Math.round`: rounds half toward positive infinity. -/
def jsRound (x : ℚ) : ℤ := ⌊x + 1/2⌋

/-- `src/puzzle.js` : `SIDES = 12`. -/
def SIDES : ℕ := 12

/-- `src/puzzle.js` : `positionToAngle(pos) = (pos * 30 + 15) % 360`. -/
def positionToAngle (pos : ℤ) : ℚ := jsModQ (pos * 30 + 15) 360

/-- `src/puzzle.js` : `angleToPosition(angle) =
    Math.round(((angle - 15 + 360) % 360) / 30) % 12`. -/
def angleToPosition (angle : ℚ) : ℤ :=
  Int.tmod (jsRound (jsModQ (angle - 15 + 360) 360 / 30)) 12

/-- `src/puzzle.js` : `areAtSamePosition` — two angles occupy the same or
    the diametrically opposite slot after rounding to slot indices. -/
def areAtSamePosition (angle1 angle2 : ℚ) : Bool :=
  let pos1 := angleToPosition angle1
  let pos2 := angleToPosition angle2
  pos1 == pos2 || pos1 == Int.tmod (pos2 + 6) 12 || pos2 == Int.tmod (pos1 + 6) 12

section EvolutionaryChromosome

/-! Chromosome data model shared by the two evolutionary generators
    (`EvolutionaryPuzzleGenerator` in the unnamed evolutionary module and
    `SimplifiedEvolutionaryGenerator`): per ring a list of emitter slots
    and a list of blocker slots, each slot an integer in `[0,12)`. -/

/-- One ring of a chromosome: emitter and blocker slot lists. -/
structure ChromoCircle where
  emitters : List ℕ
  blockers : List ℕ
deriving DecidableEq, Repr

/-- A chromosome: lit-edge list plus (three) rings.  The generators only
    ever build chromosomes with exactly three rings; iteration in the model
    runs over the ring list with its index, which coincides with the
    source's `for (circleIdx = 0; circleIdx < 3; ...)` loops on such
    chromosomes. -/
structure Chromosome where
  litEdges : List ℕ
  circles : List ChromoCircle
deriving DecidableEq, Repr

/-- `((x % 360) + 360) % 360` on integers, as in `angleIntersectsEdge`. -/
def norm360 (x : ℤ) : ℤ := Int.tmod (Int.tmod x 360 + 360) 360

/-- Evolutionary module `angleIntersectsEdge(beamAngle, edgeStart, edgeEnd)`:
    does a beam angle fall into an edge's angular window, with wrap-around
    at 0°/360°. -/
def angleIntersectsEdge (beamAngle edgeStart edgeEnd : ℤ) : Bool :=
  let b := norm360 beamAngle
  let s := norm360 edgeStart
  let e := norm360 edgeEnd
  if e < s then s ≤ b || b ≤ e else s ≤ b && b ≤ e

/-- Beam angle of an emitter slot under a ring rotation, as computed in the
    evolutionary module: `rotatedPos = (pos + rotation) % 12`,
    `emitterAngle = rotatedPos * 30`, `beamAngle = (emitterAngle + 180) % 360`. -/
def rotatedBeamAngle (emitterPos rotation : ℕ) : ℕ :=
  ((emitterPos + rotation) % 12 * 30 + 180) % 360

/-- Evolutionary module `canEmitterHitEdge(emitterPos, edge, circleIdx)`:
    some single-ring rotation aligns the emitter's beam with the edge's
    angular window (blockers and other emitters ignored). -/
def canEmitterHitEdge (emitterPos edge _circleIdx : ℕ) : Bool :=
  (List.range 12).any fun rotation =>
    angleIntersectsEdge (rotatedBeamAngle emitterPos rotation : ℕ)
      (edge * 30 : ℕ) ((edge + 1) * 30 : ℕ)

/-- Evolutionary module `heuristicSolvabilityCheckChromosome`: every lit
    edge can potentially be hit by at least one emitter in isolation. -/
def heuristicSolvabilityCheckChromosome (ch : Chromosome) : Bool :=
  ch.litEdges.all fun edge =>
    ch.circles.enum.any fun ci =>
      ci.2.emitters.any fun emitterPos => canEmitterHitEdge emitterPos edge ci.1

/-- Evolutionary module `isBeamBlockedChromosome`: a blocker on a strictly
    outer ring sits within 15° of the beam path. -/
def isBeamBlockedChromosome (emitterCircle rotatedPos : ℕ) (rotations : List ℕ)
    (ch : Chromosome) : Bool :=
  let beamAngle : ℤ := (rotatedPos * 30 + 180) % 360
  ch.circles.enum.any fun ci =>
    emitterCircle < ci.1 &&
      ci.2.blockers.any fun blockerPos =>
        let rotation := rotations.getD ci.1 0
        let rotatedBlockerPos := (blockerPos + rotation) % 12
        let blockerAngle : ℤ := rotatedBlockerPos * 30
        |Int.tmod (beamAngle - blockerAngle + 180) 360 - 180| < 15

/-- First polygon edge (in index order) whose angular window contains the
    beam: the inner `for (edge = 0; edge < 12; edge++) ... break` loop of
    `isPuzzleSolvedWithRotationsChromosome`. -/
def firstEdgeHitBy (beamAngle : ℕ) : Option ℕ :=
  (List.range 12).find? fun edge =>
    angleIntersectsEdge (beamAngle : ℕ) (edge * 30 : ℕ) ((edge + 1) * 30 : ℕ)

/-- One emitter's contribution to the hit-edge set in
    `isPuzzleSolvedWithRotationsChromosome`: the first edge whose angular
    window contains the beam is added unless the beam is blocked. -/
def addEmitterHit (ch : Chromosome) (rotations : List ℕ) (circleIdx : ℕ)
    (acc : Finset ℕ) (emitterPos : ℕ) : Finset ℕ :=
  (firstEdgeHitBy (rotatedBeamAngle emitterPos (rotations.getD circleIdx 0))).elim acc
    fun edge =>
      if isBeamBlockedChromosome circleIdx
          ((emitterPos + rotations.getD circleIdx 0) % 12) rotations ch then acc
      else insert edge acc

/-- Evolutionary module `isPuzzleSolvedWithRotationsChromosome`: collect the
    set of edges hit under a rotation vector and test that it covers the
    lit edges. -/
def isPuzzleSolvedWithRotationsChromosome (ch : Chromosome) (rotations : List ℕ) : Bool :=
  let hitEdges : Finset ℕ :=
    ch.circles.enum.foldl (fun acc ci =>
      ci.2.emitters.foldl (addEmitterHit ch rotations ci.1) acc) ∅
  ch.litEdges.all fun edge => decide (edge ∈ hitEdges)

/-- Evolutionary module `bruteForceSolvabilityCheckChromosome`: try all
    `12³ = 1728` rotation vectors. -/
def bruteForceSolvabilityCheckChromosome (ch : Chromosome) : Bool :=
  (List.range 12).any fun r1 =>
    (List.range 12).any fun r2 =>
      (List.range 12).any fun r3 =>
        isPuzzleSolvedWithRotationsChromosome ch [r1, r2, r3]

/-- Evolutionary module `calculateSolvabilityFromChromosome`: cheap
    heuristic pre-filter, then the full brute-force check. -/
def calculateSolvabilityFromChromosome (ch : Chromosome) : ℚ :=
  if ¬ heuristicSolvabilityCheckChromosome ch then 0
  else if bruteForceSolvabilityCheckChromosome ch then 1 else 0

end EvolutionaryChromosome

section SimplifiedScores

/-! Fitness sub-scores of `SimplifiedEvolutionaryGenerator`
    (`src/simplified-evolutionary-generator.js`). -/

/-- `Math.max(...)` over a list of naturals (all uses are on non-empty
    count lists, where the `0` initial value is harmless). -/
def listMax (l : List ℕ) : ℕ := l.foldl max 0

/-- `Math.min(...)` over a non-empty list of naturals. -/
def listMin (l : List ℕ) : ℕ :=
  match l with
  | [] => 0
  | x :: rest => rest.foldl min x

/-- `SimplifiedEvolutionaryGenerator.calculateDistributionScore`: 0 with no
    emitters, a heavy 0.1 penalty when some ring is empty, otherwise
    `1 - (max - min) / total`. -/
def calculateDistributionScore (ch : Chromosome) : ℚ :=
  if (ch.circles.map (fun c => c.emitters.length)).sum = 0 then 0
  else if 0 < ((ch.circles.map (fun c => c.emitters.length)).filter (fun c => c == 0)).length
    then 0.1
  else 1 - ((listMax (ch.circles.map (fun c => c.emitters.length)) : ℚ) -
      (listMin (ch.circles.map (fun c => c.emitters.length)) : ℚ)) /
    (((ch.circles.map (fun c => c.emitters.length)).sum : ℕ) : ℚ)

/-- `SimplifiedEvolutionaryGenerator.calculateVarietyScore`: start from 1,
    subtract 0.2 per overloaded ring, scale by the fraction of distinct
    emitter slots.  (With no emitters at all the JS quotient is `NaN`; the
    model's rational division yields 0 — that case is excluded by the
    every-ring-non-empty hypothesis wherever this score is used.) -/
def calculateVarietyScore (ch : Chromosome) : ℚ :=
  max 0 ((ch.circles.foldl (fun v c => if 4 < c.emitters.length then v - 0.2 else v) 1) *
    (((ch.circles.foldr (fun c acc => c.emitters ++ acc) []).dedup.length : ℚ) /
      ((ch.circles.foldr (fun c acc => c.emitters ++ acc) []).length : ℚ)))

/-- `SimplifiedEvolutionaryGenerator.calculateAestheticScore`: base 0.5,
    plus 0.1 per lit edge whose opposite is lit and 0.05 per consecutive
    adjacent pair, capped at 1. -/
def calculateAestheticScore (ch : Chromosome) : ℚ :=
  min (if 2 ≤ ch.litEdges.length then
      0.5 + ((ch.litEdges.filter
          (fun e => ch.litEdges.contains ((e + 6) % 12))).length : ℚ) * 0.1 +
        (((ch.litEdges.zip ch.litEdges.tail).filter
          (fun p => p.2 == p.1 + 1)).length : ℚ) * 0.05
    else 0.5) 1

/-- Body of `SimplifiedEvolutionaryGenerator.calculateFitness` after the
    solvability oracle has produced its verdict `solvable`. -/
def calculateFitnessGiven (solvable : Bool) (ch : Chromosome) : ℚ :=
  if solvable then
    0.6 + 0.2 * calculateDistributionScore ch + 0.1 * calculateVarietyScore ch
      + 0.1 * calculateAestheticScore ch
  else
    0.3 * calculateDistributionScore ch + 0.1 * calculateVarietyScore ch
      + 0.1 * calculateAestheticScore ch

/-- Every ring of the chromosome carries at least one emitter. -/
def ringsNonEmpty (ch : Chromosome) : Prop :=
  ∀ c ∈ ch.circles, c.emitters ≠ []

/-- On every ring, no emitter slot is also a blocker slot. -/
def slotsDisjoint (ch : Chromosome) : Prop :=
  ∀ c ∈ ch.circles, ∀ p ∈ c.emitters, p ∉ c.blockers

end SimplifiedScores

section RandomModel

/-! Random generation model.  `Math.random()` is an explicit stream
    `s : ℕ → ℚ` of values (in `[0,1)` in the real runtime), consumed one
    entry per call; an index into the stream is threaded through every
    function.  Loops whose termination depends on the drawn values carry
    fuel and return `none` when it runs out. -/

/-- A slot draw `Math.floor(Math.random() * 12)`: an integer in `[0,12)`
    whenever the stream value is in `[0,1)`, hence represented as `ℕ`. -/
def drawSlot (s : ℕ → ℚ) (i : ℕ) : ℕ := (⌊s i * 12⌋).toNat

/-- The `do { newPos = Math.floor(Math.random()*12) } while (avoid.includes(newPos))`
    resampling loop used throughout both evolutionary generators. -/
def resampleFresh (s : ℕ → ℚ) (avoid : List ℕ) : ℕ → ℕ → Option (ℕ × ℕ)
  | _, 0 => none
  | i, fuel + 1 =>
      let pos := drawSlot s i
      if avoid.contains pos then resampleFresh s avoid (i + 1) fuel
      else some (pos, i + 1)

/-- The `while (acc.length < target) { pos = draw; if fresh push }` filling
    loop used by both generators for lit edges, emitters and blockers:
    freshness means membership neither in the list under construction nor
    in `other`. -/
def fillSlots (s : ℕ → ℚ) (other : List ℕ) (target : ℕ) :
    List ℕ → ℕ → ℕ → Option (List ℕ × ℕ)
  | acc, i, 0 => if target ≤ acc.length then some (acc, i) else none
  | acc, i, fuel + 1 =>
      if target ≤ acc.length then some (acc, i)
      else if acc.contains (drawSlot s i) || other.contains (drawSlot s i) then
        fillSlots s other target acc (i + 1) fuel
      else fillSlots s other target (acc ++ [drawSlot s i]) (i + 1) fuel

/-- The `while (remaining > 0) { distribution[random container]++ }` loop of
    `distributeElements` (and of the inline distribution loops of the
    simplified generator); the iteration count is the loop counter itself,
    so no fuel is needed. -/
def distLoop (s : ℕ → ℚ) (containers : ℕ) : List ℕ → ℕ → ℕ → List ℕ × ℕ
  | dist, i, 0 => (dist, i)
  | dist, i, k + 1 =>
      let c := (⌊s i * (containers : ℚ)⌋).toNat
      distLoop s containers (dist.set c (dist.getD c 0 + 1)) (i + 1) k

/-- `EvolutionaryPuzzleGenerator.distributeElements(total, containers,
    minPerContainer)`: start every container at the minimum and hand out the
    remainder at random. -/
def distributeElements (total : ℤ) (containers minPer : ℕ) (s : ℕ → ℚ) (i : ℕ) :
    List ℕ × ℕ :=
  distLoop s containers (List.replicate containers minPer) i
    (total - (containers : ℤ) * (minPer : ℕ)).toNat

/-- Per-ring construction step shared by both `createRandomChromosome`
    implementations: fill the emitter list, then the blocker list (each draw
    rejected on collision with anything already on the ring). -/
def buildCircles (s : ℕ → ℚ) (fuel : ℕ) :
    List (ℕ × ℕ) → ℕ → Option (List ChromoCircle × ℕ)
  | [], i => some ([], i)
  | (ne, nb) :: rest, i =>
      (fillSlots s [] ne [] i fuel).bind fun em =>
        (fillSlots s em.1 nb [] em.2 fuel).bind fun bl =>
          (buildCircles s fuel rest bl.2).bind fun cs =>
            some (⟨em.1, bl.1⟩ :: cs.1, cs.2)

/-- Insertion of one element into a sorted list (ascending). -/
def insertAsc (x : ℕ) : List ℕ → List ℕ
  | [] => [x]
  | y :: rest => if x ≤ y then x :: y :: rest else y :: insertAsc x rest

/-- The JS `litEdges.sort((a, b) => a - b)` ascending numeric sort,
    realised as insertion sort. -/
def sortNat (l : List ℕ) : List ℕ := l.foldr insertAsc []

/-- Difficulty configuration of `EvolutionaryPuzzleGenerator`
    (lit-edge / target-rotation / emitter / blocker ranges and fitness
    weights). -/
structure EvoConfig where
  litEdgeRange : ℤ × ℤ
  targetRotations : ℤ × ℤ
  emitterRange : ℤ × ℤ
  blockerRange : ℤ × ℤ
  weights : ℚ × ℚ × ℚ × ℚ
deriving DecidableEq, Repr

/-- One `range[0] + Math.floor(Math.random() * (range[1] - range[0] + 1))`
    draw from an inclusive integer range. -/
def drawFromRange (range : ℤ × ℤ) (r : ℚ) : ℤ :=
  range.1 + ⌊r * ((range.2 - range.1 + 1 : ℤ) : ℚ)⌋

/-- `EvolutionaryPuzzleGenerator.createRandomChromosome`: draw the lit-edge
    count and the element totals, force the emitter distribution to at
    least one per ring (`distributeElements(·, 3, 1)`), blockers at least
    zero, then fill the three rings. -/
def evoCreateRandomChromosome (config : EvoConfig) (s : ℕ → ℚ) (i fuel : ℕ) :
    Option (Chromosome × ℕ) :=
  (fillSlots s [] (drawFromRange config.litEdgeRange (s i)).toNat [] (i + 1) fuel).bind
    fun lit =>
      let ed := distributeElements (drawFromRange config.emitterRange (s lit.2)) 3 1 s (lit.2 + 2)
      let bd := distributeElements (drawFromRange config.blockerRange (s (lit.2 + 1))) 3 0 s ed.2
      (buildCircles s fuel (ed.1.zip bd.1) bd.2).bind fun cs =>
        some (⟨sortNat lit.1, cs.1⟩, cs.2)

/-- Difficulty configuration of `SimplifiedEvolutionaryGenerator`
    (`getDifficultyConfig`): lit-edge, total-emitter and total-blocker
    ranges. -/
structure SimpConfig where
  litEdges : ℤ × ℤ
  totalEmitters : ℤ × ℤ
  totalBlockers : ℤ × ℤ
deriving DecidableEq, Repr

/-- `SimplifiedEvolutionaryGenerator.getDifficultyConfig`: preset lookup
    with fallback to the medium preset for any unknown difficulty string
    (`configs[difficulty] || configs.medium`). -/
def getDifficultyConfig (difficulty : String) : SimpConfig :=
  if difficulty = "easy" then ⟨(3, 4), (4, 6), (1, 2)⟩
  else if difficulty = "medium" then ⟨(3, 5), (5, 7), (2, 3)⟩
  else if difficulty = "hard" then ⟨(4, 6), (6, 8), (3, 4)⟩
  else ⟨(3, 5), (5, 7), (2, 3)⟩

/-- `SimplifiedEvolutionaryGenerator.createRandomChromosome`: same shape as
    the full generator's — lit edges, totals, forced `[1,1,1]`-based
    emitter distribution, `[0,0,0]`-based blocker distribution, ring
    filling — with the simplified config and a sort of the lit edges. -/
def simpCreateRandomChromosome (config : SimpConfig) (s : ℕ → ℚ) (i fuel : ℕ) :
    Option (Chromosome × ℕ) :=
  (fillSlots s [] (drawFromRange config.litEdges (s i)).toNat [] (i + 1) fuel).bind
    fun lit =>
      let ed := distributeElements (drawFromRange config.totalEmitters (s lit.2)) 3 1 s (lit.2 + 2)
      let bd := distributeElements (drawFromRange config.totalBlockers (s (lit.2 + 1))) 3 0 s ed.2
      (buildCircles s fuel (ed.1.zip bd.1) bd.2).bind fun cs =>
        some (⟨sortNat lit.1, cs.1⟩, cs.2)

/-- The `while (length > range) { splice(random index, 1) }` trimming loop
    of `repairChromosome`; each successful step shortens the list, but an
    out-of-range index leaves it unchanged, so the loop carries fuel. -/
def trimLoop (s : ℕ → ℚ) (upper : ℤ) : List ℕ → ℕ → ℕ → Option (List ℕ × ℕ)
  | l, i, 0 => if (l.length : ℤ) ≤ upper then some (l, i) else none
  | l, i, fuel + 1 =>
      if (l.length : ℤ) ≤ upper then some (l, i)
      else trimLoop s upper (l.eraseIdx (⌊s i * (l.length : ℚ)⌋).toNat) (i + 1) fuel

/-- Per-ring step of `repairChromosome`: add one random emitter (rejecting
    blocker slots) when the ring has none, then drop every blocker that
    overlaps an emitter. -/
def repairCircle (s : ℕ → ℚ) (fuel : ℕ) (c : ChromoCircle) (i : ℕ) :
    Option (ChromoCircle × ℕ) :=
  if c.emitters.isEmpty then
    (resampleFresh s c.blockers i fuel).bind fun pk =>
      some (⟨c.emitters ++ [pk.1],
        c.blockers.filter (fun p => ¬ (c.emitters ++ [pk.1]).contains p)⟩, pk.2)
  else
    some (⟨c.emitters, c.blockers.filter (fun p => ¬ c.emitters.contains p)⟩, i)

/-- Sequential repair of all rings. -/
def repairCircles (s : ℕ → ℚ) (fuel : ℕ) : List ChromoCircle → ℕ → Option (List ChromoCircle × ℕ)
  | [], i => some ([], i)
  | c :: rest, i =>
      (repairCircle s fuel c i).bind fun c1 =>
        (repairCircles s fuel rest c1.2).bind fun cs =>
          some (c1.1 :: cs.1, cs.2)

/-- `EvolutionaryPuzzleGenerator.repairChromosome`: pad the lit edges up to
    the range minimum (resampling duplicates), trim them down to the range
    maximum at random indices, sort them, then repair every ring (add an
    emitter to an empty ring, remove blockers overlapping emitters). -/
def repairChromosome (ch : Chromosome) (config : EvoConfig) (s : ℕ → ℚ) (i fuel : ℕ) :
    Option (Chromosome × ℕ) :=
  (fillSlots s [] config.litEdgeRange.1.toNat ch.litEdges i fuel).bind fun l1 =>
    (trimLoop s config.litEdgeRange.2 l1.1 l1.2 fuel).bind fun l2 =>
      (repairCircles s fuel ch.circles l2.2).bind fun cs =>
        some (⟨sortNat l2.1, cs.1⟩, cs.2)

/-- Final block of `SimplifiedEvolutionaryGenerator.mutate` (the repair
    step run on every offspring): give each emitter-less ring one random
    emitter, rejecting slots occupied by blockers. -/
def simpEnsureEmitters (s : ℕ → ℚ) (fuel : ℕ) : List ChromoCircle → ℕ → Option (List ChromoCircle × ℕ)
  | [], i => some ([], i)
  | c :: rest, i =>
      if c.emitters.isEmpty then
        (resampleFresh s c.blockers i fuel).bind fun pk =>
          (simpEnsureEmitters s fuel rest pk.2).bind fun cs =>
            some (⟨c.emitters ++ [pk.1], c.blockers⟩ :: cs.1, cs.2)
      else
        (simpEnsureEmitters s fuel rest i).bind fun cs =>
          some (c :: cs.1, cs.2)

end RandomModel

section GeneratePuzzleJs

/-! Model of `src/puzzle.js` `generatePuzzle(minLit, maxLit)`.  Here the
    arithmetic is kept exactly (integers may leave `[0,12)` when the
    parameters are out of range), so edges and slots are `ℤ` and emitter /
    blocker entries are the stored angles (`ℚ`). -/

/-- One ring produced by `generatePuzzle`: radius plus stored emitter
    (`lasers`) and blocker angles. -/
structure GenCircle where
  radius : ℚ
  lasers : List ℚ
  blockers : List ℚ
deriving DecidableEq, Repr

/-- A puzzle produced by `generatePuzzle`. -/
structure GenPuzzle where
  litEdges : List ℤ
  circles : List GenCircle
deriving DecidableEq, Repr

/-- `numLit = Math.floor(Math.random() * (maxLit - minLit + 1)) + minLit`. -/
def genNumLit (minLit maxLit : ℤ) (r : ℚ) : ℤ :=
  ⌊r * ((maxLit - minLit + 1 : ℤ) : ℚ)⌋ + minLit

/-- The lit-edge selection loop of `generatePuzzle`:
    `while (litEdges.length < numLit) { idx = floor(rand*12); if (!includes) push }`. -/
def genFillLit (s : ℕ → ℚ) (numLit : ℤ) : List ℤ → ℕ → ℕ → Option (List ℤ × ℕ)
  | acc, i, 0 => if (acc.length : ℤ) < numLit then none else some (acc, i)
  | acc, i, fuel + 1 =>
      if (acc.length : ℤ) < numLit then
        if acc.contains (⌊s i * 12⌋ : ℤ) then genFillLit s numLit acc (i + 1) fuel
        else genFillLit s numLit (acc ++ [(⌊s i * 12⌋ : ℤ)]) (i + 1) fuel
      else some (acc, i)

/-- Insertion of one element into a sorted integer list (ascending). -/
def insertAscInt (x : ℤ) : List ℤ → List ℤ
  | [] => [x]
  | y :: rest => if x ≤ y then x :: y :: rest else y :: insertAscInt x rest

/-- `litEdges.sort((a, b) => a - b)` on integers. -/
def sortInt (l : List ℤ) : List ℤ := l.foldr insertAscInt []

/-- The emitter / blocker placement loop of `generatePuzzle`: draw a slot,
    reject it if the slot or its opposite is already used, otherwise mark
    both used and store the slot's angle. -/
def genFillRing (s : ℕ → ℚ) (target : ℤ) :
    List ℚ → List ℤ → ℕ → ℕ → Option (List ℚ × List ℤ × ℕ)
  | items, used, i, 0 =>
      if (items.length : ℤ) < target then none else some (items, used, i)
  | items, used, i, fuel + 1 =>
      if (items.length : ℤ) < target then
        if used.contains (⌊s i * 12⌋ : ℤ) ||
            used.contains (Int.tmod ((⌊s i * 12⌋ : ℤ) + 6) 12) then
          genFillRing s target items used (i + 1) fuel
        else
          genFillRing s target (items ++ [positionToAngle (⌊s i * 12⌋ : ℤ)])
            (used ++ [(⌊s i * 12⌋ : ℤ), Int.tmod ((⌊s i * 12⌋ : ℤ) + 6) 12]) (i + 1) fuel
      else some (items, used, i)

/-- Construction of the three rings of `generatePuzzle`: per radius, draw
    1–3 emitters and 1–2 blockers and place them at pairwise fresh
    slot/opposite pairs. -/
def genBuildCircles (s : ℕ → ℚ) (fuel : ℕ) : List ℚ → ℕ → Option (List GenCircle × ℕ)
  | [], i => some ([], i)
  | radius :: rest, i =>
      (genFillRing s (⌊s i * 3⌋ + 1) [] [] (i + 2) fuel).bind fun em =>
        (genFillRing s (⌊s (i + 1) * 2⌋ + 1) [] em.2.1 em.2.2 fuel).bind fun bl =>
          (genBuildCircles s fuel rest bl.2.2).bind fun cs =>
            some (⟨radius, em.1, bl.1⟩ :: cs.1, cs.2)

/-- `circles[cidx].lasers[0] = targetAngle` — JS index assignment, which
    appends when the array is empty. -/
def setHead (l : List ℚ) (x : ℚ) : List ℚ :=
  match l with
  | [] => [x]
  | _ :: rest => x :: rest

/-- Step 3 of `generatePuzzle`: walk the lit edges round-robin over the
    rings and, when the target slot and its opposite are free of the other
    emitters and the blockers of that ring, overwrite the ring's first
    emitter with the exact target angle. -/
def genPlaceTargets : List (ℕ × ℤ) → List GenCircle → List GenCircle
  | [], cs => cs
  | (i, targetPos) :: rest, cs =>
      let cidx := i % 3
      match cs.get? cidx with
      | none => genPlaceTargets rest cs
      | some c =>
          let used :=
            ((c.lasers.drop 1).map angleToPosition ++ c.blockers.map angleToPosition).foldr
              (fun p acc => p :: Int.tmod (p + 6) 12 :: acc) []
          if used.contains targetPos || used.contains (Int.tmod (targetPos + 6) 12) then
            genPlaceTargets rest cs
          else
            genPlaceTargets rest
              (cs.set cidx ⟨c.radius, setHead c.lasers (positionToAngle targetPos), c.blockers⟩)

/-- `src/puzzle.js` `generatePuzzle(minLit, maxLit)`: select the lit edges,
    build the three rings at radii 50/90/130, then place guarantee emitters
    for the lit edges. -/
def generatePuzzleModel (minLit maxLit : ℤ) (s : ℕ → ℚ) (i fuel : ℕ) :
    Option (GenPuzzle × ℕ) :=
  (genFillLit s (genNumLit minLit maxLit (s i)) [] (i + 1) fuel).bind fun lit =>
    (genBuildCircles s fuel [50, 90, 130] lit.2).bind fun cs =>
      some (⟨sortInt lit.1, genPlaceTargets (sortInt lit.1).enum cs.1⟩, cs.2)

end GeneratePuzzleJs

section EvoDistributionFitness

/-- `EvolutionaryPuzzleGenerator.calculateDistributionFitness`: 0 with no
    emitters, otherwise a Gaussian-style evenness term
    `exp(-variance / (total * 0.5))` minus a penalty of `0.3` per empty
    ring, clamped below at 0. -/
noncomputable def calculateDistributionFitness (ch : Chromosome) : ℝ :=
  let emitterCounts := ch.circles.map (fun c => c.emitters.length)
  let totalEmitters := emitterCounts.sum
  if totalEmitters = 0 then 0
  else
    let emptyPenalty : ℝ := ((emitterCounts.filter (fun c => c == 0)).length : ℝ) * 0.3
    let idealDistribution : ℝ := (totalEmitters : ℝ) / 3
    let variance : ℝ :=
      (emitterCounts.map (fun c => ((c : ℝ) - idealDistribution) ^ 2)).sum / 3
    max 0 (Real.exp (-(variance / ((totalEmitters : ℝ) * 0.5))) - emptyPenalty)

end EvoDistributionFitness

section DifficultyAnalyzer

/-! Model of `src/difficulty-analyzer.js`, operating on the plain puzzle
    shape (`litEdges` as edge indices, per ring the stored emitter and
    blocker angles). -/

/-- Total emitter count of a puzzle. -/
def totalEmittersOf (p : GenPuzzle) : ℕ := (p.circles.map (fun c => c.lasers.length)).sum

/-- Total blocker count of a puzzle. -/
def totalBlockersOf (p : GenPuzzle) : ℕ := (p.circles.map (fun c => c.blockers.length)).sum

/-- `calculateBasicMetrics(puzzle).score`: mean of the clamped emitter,
    blocker and lit-edge densities. -/
def basicMetricsScore (p : GenPuzzle) : ℚ :=
  (min ((totalEmittersOf p : ℚ) / 12) 1 + min ((totalBlockersOf p : ℚ) / 8) 1 +
    min ((p.litEdges.length : ℚ) / 8) 1) / 3

/-- Minimum of a rational list with a leading default (`Infinity` handling
    is done by the caller on the empty list). -/
def listMinQ (x : ℚ) (l : List ℚ) : ℚ := l.foldl min x

/-- `estimateMinimumRotations`: per lit edge the fewest 30°-steps any
    emitter needs to face that edge (3 when there is no emitter at all),
    summed and capped at 20. -/
def estimateMinimumRotations (p : GenPuzzle) : ℚ :=
  let perEdge : ℤ → ℚ := fun edge =>
    let targetAngle := jsModQ ((edge : ℚ) * 30 + 15) 360
    let needs := p.circles.foldr (fun c acc =>
      c.lasers.map (fun emitterAngle =>
        let currentDirection := jsModQ (emitterAngle + 180) 360
        (min |targetAngle - currentDirection| (360 - |targetAngle - currentDirection|)) / 30)
        ++ acc) []
    match needs with
    | [] => 3
    | x :: rest => listMinQ x rest
  min ((p.litEdges.map perEdge).sum) 20

/-- Ordered pairs `(i, j)`, `i < j`, of the ring list, in loop order. -/
def circlePairs : List GenCircle → List (GenCircle × GenCircle)
  | [] => []
  | c :: rest => rest.map (fun c2 => (c, c2)) ++ circlePairs rest

/-- `calculateCircleInterdependency`: per ring pair the fraction of
    emitter/blocker combinations within 45° of each other, summed and
    capped at 1. -/
def calculateCircleInterdependency (p : GenPuzzle) : ℚ :=
  let per : GenCircle × GenCircle → ℚ := fun cc =>
    let conflicts := ((cc.1.lasers.map (fun e =>
      (cc.2.blockers.filter (fun b => |jsModQ (e - b + 180) 360 - 180| < 45)).length)).sum : ℚ)
    let denom := cc.1.lasers.length * cc.2.blockers.length
    conflicts / (if denom = 0 then 1 else (denom : ℚ))
  min ((circlePairs p.circles).map per).sum 1

/-- `calculateSolutionUniqueness`: emitters-per-lit-edge ratio, normalized
    by 3 and clamped at 1 (1 when there are no lit edges). -/
def calculateSolutionUniqueness (p : GenPuzzle) : ℚ :=
  if p.litEdges.length = 0 then 1
  else min ((totalEmittersOf p : ℚ) / (p.litEdges.length : ℚ) / 3) 1

/-- `calculateSolutionComplexity(puzzle).score`. -/
def solutionComplexityScore (p : GenPuzzle) : ℚ :=
  min (estimateMinimumRotations p / 10) 1 * 0.4 +
    calculateCircleInterdependency p * 0.4 +
    (1 - calculateSolutionUniqueness p) * 0.2

/-- `hasRotationalSymmetry(litEdges, fold)`: every lit edge has a partner
    under some nontrivial rotation of the fold. -/
def hasRotationalSymmetry (litEdges : List ℤ) (fold : ℕ) : Bool :=
  litEdges.all fun edge =>
    (List.range (fold - 1)).any fun i =>
      litEdges.contains (Int.tmod (edge + ((i : ℤ) + 1) * (12 / (fold : ℤ))) 12)

/-- `calculateSymmetryFactor`: best `1 / fold` over the folds 2,3,4,6 whose
    rotational symmetry holds. -/
def calculateSymmetryFactor (p : GenPuzzle) : ℚ :=
  [2, 3, 4, 6].foldl (fun acc fold =>
    if hasRotationalSymmetry p.litEdges fold then max acc (1 / (fold : ℚ)) else acc) 0

/-- `calculateWorkingMemoryLoad`: weighted element count against Miller's
    7±2 rule. -/
def calculateWorkingMemoryLoad (p : GenPuzzle) : ℚ :=
  min (((p.litEdges.length : ℚ) + (totalEmittersOf p : ℚ) * 0.5 +
    (totalBlockersOf p : ℚ) * 0.3) / 9) 1

/-- `calculateVisualComplexity`: clamped element density, discounted by
    symmetry. -/
def calculateVisualComplexity (p : GenPuzzle) : ℚ :=
  let totalElements := (p.litEdges.length : ℚ) + (totalEmittersOf p : ℚ) + (totalBlockersOf p : ℚ)
  min (totalElements / 20) 1 * (1 - calculateSymmetryFactor p * 0.3)

/-- Count of maximal runs of consecutive lit edges over the indices 0–11. -/
def consecutiveGroupsCount (litEdges : List ℤ) : ℕ :=
  let st := (List.range 12).foldl (fun st i =>
    if litEdges.contains (i : ℤ) then (st.1, st.2 + 1)
    else if 0 < st.2 then (st.1 + 1, 0) else (st.1, 0)) ((0 : ℕ), (0 : ℕ))
  if 0 < st.2 then st.1 + 1 else st.1

/-- `checkForCommonPatterns`: 0.3 for at most two consecutive groups plus
    0.3 for at least two opposite pairs, capped at 1. -/
def checkForCommonPatterns (p : GenPuzzle) : ℚ :=
  let fromGroups : ℚ := if consecutiveGroupsCount p.litEdges ≤ 2 then 0.3 else 0
  let oppositePairs :=
    (p.litEdges.filter (fun e => p.litEdges.contains (Int.tmod (e + 6) 12))).length
  let fromPairs : ℚ := if 2 ≤ oppositePairs then 0.3 else 0
  min (fromGroups + fromPairs) 1

/-- `calculateSpacingRegularity`: 1 minus a tenth of the variance of the
    circular gaps between sorted lit edges (1 for fewer than two edges),
    clamped below at 0. -/
def calculateSpacingRegularity (p : GenPuzzle) : ℚ :=
  if p.litEdges.length < 2 then 1
  else
    let sortedEdges := sortInt p.litEdges
    let n := sortedEdges.length
    let spacings : List ℚ := (List.range n).map (fun i =>
      let cur := sortedEdges.getD i 0
      let nxt := sortedEdges.getD ((i + 1) % n) 0
      if cur < nxt then ((nxt - cur : ℤ) : ℚ) else ((12 - cur + nxt : ℤ) : ℚ))
    let meanSpacing := spacings.sum / (n : ℚ)
    let variance := (spacings.map (fun sp => (sp - meanSpacing) ^ 2)).sum / (n : ℚ)
    max 0 (1 - variance / 10)

/-- `calculatePatternDifficulty`. -/
def calculatePatternDifficulty (p : GenPuzzle) : ℚ :=
  (1 - checkForCommonPatterns p) * 0.6 + (1 - calculateSpacingRegularity p) * 0.4

/-- `calculateCognitiveLoad(puzzle).score`. -/
def cognitiveLoadScore (p : GenPuzzle) : ℚ :=
  (calculateWorkingMemoryLoad p + calculateVisualComplexity p +
    calculatePatternDifficulty p) / 3

/-- `calculateVisualBalance`: emitter and blocker spread across rings. -/
def calculateVisualBalance (p : GenPuzzle) : ℚ :=
  let emitterDistribution := p.circles.map (fun c => c.lasers.length)
  let blockerDistribution := p.circles.map (fun c => c.blockers.length)
  let emitterBalance : ℚ :=
    1 - ((listMax emitterDistribution : ℚ) - (listMin emitterDistribution : ℚ)) / 5
  let blockerBalance : ℚ :=
    1 - ((listMax blockerDistribution : ℚ) - (listMin blockerDistribution : ℚ)) / 3
  max 0 ((emitterBalance + blockerBalance) / 2)

/-- `calculateElegance`: lit edges per element, with a density penalty. -/
def calculateElegance (p : GenPuzzle) : ℚ :=
  let totalElements := (totalEmittersOf p : ℚ) + (totalBlockersOf p : ℚ)
  let efficiency := (p.litEdges.length : ℚ) / totalElements
  let complexityPenalty := max 0 ((totalElements - 15) / 10)
  max 0 (min 1 (efficiency - complexityPenalty))

/-- `calculateAestheticScore(puzzle).score` of the difficulty analyzer. -/
def aestheticScoreAnalyzer (p : GenPuzzle) : ℚ :=
  (calculateSymmetryFactor p + calculateVisualBalance p + calculateElegance p) / 3

/-- `analyzePuzzleDifficulty(puzzle).overallDifficulty`: weighted blend of
    the four sub-scores (lower aesthetics raises difficulty). -/
def overallDifficulty (p : GenPuzzle) : ℚ :=
  basicMetricsScore p * 0.3 + solutionComplexityScore p * 0.4 +
    cognitiveLoadScore p * 0.2 + (1 - aestheticScoreAnalyzer p) * 0.1

end DifficultyAnalyzer

section RealGeometryOracle

/-! Model of the ray-casting solvability oracle of `src/puzzle.js`
    (`isPuzzleSolvable`) and of its near-duplicate in
    `SimplifiedEvolutionaryGenerator.isChromosomeSolvable`.  Stored angles
    stay exact rationals; world coordinates, ray directions and ray
    parameters are exact reals (the JS doubles idealized), so these
    definitions are noncomputable and proofs about them are structural. -/

/-- `src/puzzle.js` : `CENTER = 200`. -/
def CENTER : ℝ := 200

/-- `src/puzzle.js` : `SHAPE_ROTATION = 15` degrees. -/
def SHAPE_ROTATION : ℚ := 15

/-- `degToRad(deg) = deg * π / 180`. -/
noncomputable def degToRad (deg : ℝ) : ℝ := deg * Real.pi / 180

/-- `getPolygonPoints(sides, radius, center)`: vertex `i` at angle
    `2πi/sides − π/2 + rad(15)`. -/
noncomputable def getPolygonPoints (sides : ℕ) (radius center : ℝ) : List (ℝ × ℝ) :=
  (List.range sides).map fun i =>
    (center + radius * Real.cos (2 * Real.pi * i / sides - Real.pi / 2 + degToRad 15),
     center + radius * Real.sin (2 * Real.pi * i / sides - Real.pi / 2 + degToRad 15))

/-- One ring of an oracle puzzle: radius and stored emitter (`lasers`) and
    blocker angles. -/
structure Circle where
  radius : ℚ
  lasers : List ℚ
  blockers : List ℚ

/-- An oracle puzzle: lit edge indices plus rings. -/
structure Puzzle where
  litEdges : List ℕ
  circles : List Circle

/-- World data of one emitter under a rotation vector: ring index, firing
    angle (`rotated + 180`), position, and the stored angle used for
    same-slot checks. -/
structure EmitterPt where
  idx : ℕ
  angle : ℚ
  x : ℝ
  y : ℝ
  originalAngle : ℚ

/-- World data of one blocker under a rotation vector. -/
structure BlockerPt where
  idx : ℕ
  angle : ℚ
  x : ℝ
  y : ℝ
  originalAngle : ℚ

/-- The rotation list `[r0 * 30, r1 * 30, r2 * 30]` of the oracle's search
    loop, looked up by ring index. -/
def rotationOf (r0 r1 r2 : ℕ) (idx : ℕ) : ℚ :=
  [((r0 * 30 : ℕ) : ℚ), ((r1 * 30 : ℕ) : ℚ), ((r2 * 30 : ℕ) : ℚ)].getD idx 0

/-- Emitter world data under a rotation vector, for a given board center
    and shape rotation (`puzzle.js` uses center 200 and +15°, the
    simplified generator center 150 and −15°). -/
noncomputable def emittersForAt (center : ℝ) (shapeRot : ℚ) (p : Puzzle) (r0 r1 r2 : ℕ) :
    List EmitterPt :=
  p.circles.enum.flatMap fun ci =>
    ci.2.lasers.map fun angle =>
      { idx := ci.1
        angle := angle + rotationOf r0 r1 r2 ci.1 + shapeRot + 180
        x := center + (ci.2.radius : ℝ) *
          Real.cos (degToRad ((angle + rotationOf r0 r1 r2 ci.1 + shapeRot : ℚ) : ℝ))
        y := center + (ci.2.radius : ℝ) *
          Real.sin (degToRad ((angle + rotationOf r0 r1 r2 ci.1 + shapeRot : ℚ) : ℝ))
        originalAngle := angle }

/-- Blocker world data under a rotation vector. -/
noncomputable def blockersForAt (center : ℝ) (shapeRot : ℚ) (p : Puzzle) (r0 r1 r2 : ℕ) :
    List BlockerPt :=
  p.circles.enum.flatMap fun ci =>
    ci.2.blockers.map fun angle =>
      { idx := ci.1
        angle := angle + rotationOf r0 r1 r2 ci.1 + shapeRot
        x := center + (ci.2.radius : ℝ) *
          Real.cos (degToRad ((angle + rotationOf r0 r1 r2 ci.1 + shapeRot : ℚ) : ℝ))
        y := center + (ci.2.radius : ℝ) *
          Real.sin (degToRad ((angle + rotationOf r0 r1 r2 ci.1 + shapeRot : ℚ) : ℝ))
        originalAngle := angle }

/-- The dodecagon edge list: edge `i` runs from vertex `i` to vertex
    `(i+1) mod 12`. -/
def edgeLinesOf (pts : List (ℝ × ℝ)) : List (ℕ × (ℝ × ℝ) × (ℝ × ℝ)) :=
  pts.enum.map fun ipt => (ipt.1, ipt.2, pts.getD ((ipt.1 + 1) % SIDES) (0, 0))

/-- Ray direction (x) of an emitter: `cos(degToRad(emitter.angle))`. -/
noncomputable def dirX (em : EmitterPt) : ℝ := Real.cos (degToRad ((em.angle : ℚ) : ℝ))

/-- Ray direction (y) of an emitter: `sin(degToRad(emitter.angle))`. -/
noncomputable def dirY (em : EmitterPt) : ℝ := Real.sin (degToRad ((em.angle : ℚ) : ℝ))

/-- Blocker collision radius (`r2 = 12 * 12` in the source). -/
def blockerRadius : ℝ := 12

/-- Emitter collision radius (`r2 = 13 * 13` in the source), strictly
    larger than the blocker radius. -/
def emitterRadius : ℝ := 13

open Classical in
/-- Ray/circle intersection of the oracle: forward projection, then the
    near intersection parameter `proj − √(r² − perp²)` when the
    perpendicular distance is below the collision radius. -/
noncomputable def rayCircleT (ex ey dx dy cx cy r : ℝ) : Option ℝ :=
  let bx := cx - ex
  let b2 := cy - ey
  let proj := bx * dx + b2 * dy
  if proj ≤ 0 then none
  else if bx * bx + b2 * b2 - proj * proj < r * r then
    some (proj - Real.sqrt (r * r - (bx * bx + b2 * b2 - proj * proj)))
  else none

open Classical in
/-- Ray/segment intersection of the oracle: parametric solve, rejected for
    near-parallel lines (`|denom| < 1e-6`), accepted for `t2 > 0` and
    `t1 ∈ [0, 1]`. -/
noncomputable def raySegT (ex ey dx dy x3 y3 x4 y4 : ℝ) : Option ℝ :=
  let denom := dx * (y4 - y3) - dy * (x4 - x3)
  if |denom| < 1 / 1000000 then none
  else
    let t2 := ((x3 - ex) * (y4 - y3) - (y3 - ey) * (x4 - x3)) / denom
    let t1 := ((x3 - ex) * dy - (y3 - ey) * dx) / denom
    if 0 < t2 ∧ 0 ≤ t1 ∧ t1 ≤ 1 then some t2 else none

open Classical in
/-- A blocker's candidate ray parameter in `puzzle.js`: on the emitter's own
    ring the blocker is tested only at the same or opposite slot
    (`areAtSamePosition` on the stored angles); on any other ring it is
    always tested; the collision radius is 12. -/
noncomputable def blockerCand (em : EmitterPt) (b : BlockerPt) : Option ℝ :=
  if b.idx = em.idx then
    if areAtSamePosition b.originalAngle em.originalAngle then
      rayCircleT em.x em.y (dirX em) (dirY em) b.x b.y blockerRadius
    else none
  else rayCircleT em.x em.y (dirX em) (dirY em) b.x b.y blockerRadius

/-- Another emitter's candidate ray parameter: always tested, with the
    larger collision radius 13. -/
noncomputable def emitterCand (em other : EmitterPt) : Option ℝ :=
  rayCircleT em.x em.y (dirX em) (dirY em) other.x other.y emitterRadius

/-- What the nearest obstacle turned out to be. -/
inductive HitTag where
  | blockerTag
  | emitterTag
  | edgeTag (i : ℕ)
deriving DecidableEq

/-- The candidate obstacle list of one emitter's ray cast, in the source's
    iteration order: blockers (guarded), then every other emitter (the
    source skips `other === emitter` by object identity, here by list
    position), then the twelve edges. -/
noncomputable def candList (em : EmitterPt) (selfIdx : ℕ) (emitters : List EmitterPt)
    (blockers : List BlockerPt) (edges : List (ℕ × (ℝ × ℝ) × (ℝ × ℝ))) :
    List (ℝ × HitTag) :=
  blockers.filterMap (fun b => (blockerCand em b).map (fun t => (t, HitTag.blockerTag)))
    ++ (emitters.eraseIdx selfIdx).filterMap
      (fun o => (emitterCand em o).map (fun t => (t, HitTag.emitterTag)))
    ++ edges.filterMap (fun e =>
      (raySegT em.x em.y (dirX em) (dirY em) e.2.1.1 e.2.1.2 e.2.2.1 e.2.2.2).map
        (fun t => (t, HitTag.edgeTag e.1)))

open Classical in
/-- One step of the running-minimum scan `if (t < minT) { minT = t; ... }`
    (`none` is the initial `Infinity`; on ties the earlier candidate is
    kept, as in the source). -/
noncomputable def minStep (acc : Option (ℝ × HitTag)) (c : ℝ × HitTag) :
    Option (ℝ × HitTag) :=
  match acc with
  | none => some c
  | some m => if c.1 < m.1 then some c else some m

/-- The complete ray cast of one emitter: the three scanning loops of the
    source thread one running minimum, i.e. a single fold over the
    concatenated candidate list. -/
noncomputable def castRay (em : EmitterPt) (selfIdx : ℕ) (emitters : List EmitterPt)
    (blockers : List BlockerPt) (edges : List (ℕ × (ℝ × ℝ) × (ℝ × ℝ))) :
    Option (ℝ × HitTag) :=
  (candList em selfIdx emitters blockers edges).foldl minStep none

/-- `hitType === 'edge' && hitObj.i === litIdx`: the emitter lights the lit
    edge exactly when the nearest obstacle is that edge. -/
noncomputable def emitterHitsLit (em : EmitterPt) (selfIdx : ℕ) (emitters : List EmitterPt)
    (blockers : List BlockerPt) (edges : List (ℕ × (ℝ × ℝ) × (ℝ × ℝ))) (litIdx : ℕ) :
    Bool :=
  match castRay em selfIdx emitters blockers edges with
  | some (_, HitTag.edgeTag i) => i == litIdx
  | _ => false

/-- The body of the rotation search of `isPuzzleSolvable`: under one
    rotation vector, every lit edge is hit by some emitter. -/
noncomputable def allLitHit (p : Puzzle) (points : List (ℝ × ℝ)) (r0 r1 r2 : ℕ) : Bool :=
  p.litEdges.all fun litIdx =>
    (emittersForAt CENTER SHAPE_ROTATION p r0 r1 r2).enum.any fun iem =>
      emitterHitsLit iem.2 iem.1 (emittersForAt CENTER SHAPE_ROTATION p r0 r1 r2)
        (blockersForAt CENTER SHAPE_ROTATION p r0 r1 r2) (edgeLinesOf points) litIdx

/-- `src/puzzle.js` `isPuzzleSolvable(puzzle, points)`: try all `12³ = 1728`
    rotation vectors, returning on the first that lights every lit edge. -/
noncomputable def isPuzzleSolvable (p : Puzzle) (points : List (ℝ × ℝ)) : Bool :=
  (List.range SIDES).any fun r0 =>
    (List.range SIDES).any fun r1 =>
      (List.range SIDES).any fun r2 => allLitHit p points r0 r1 r2

end RealGeometryOracle

section SimplifiedOracle

/-! The near-duplicate oracle embedded in
    `SimplifiedEvolutionaryGenerator.isChromosomeSolvable`: center 150,
    shape rotation −15°, blocker gating by rotated world angles within 1°,
    and an edge loop that records a hit as soon as the lit edge becomes the
    running minimum.  The solvability cache of the source memoizes a pure
    function and is therefore transparent to the model. -/

/-- The module-level polygon points of the simplified generator:
    vertex `i` at angle `i · 30° − 15°`, center 150, radius 180. -/
noncomputable def pointsSimp : List (ℝ × ℝ) :=
  (List.range SIDES).map fun i =>
    (150 + 180 * Real.cos (degToRad ((i : ℝ) * 360 / (SIDES : ℝ) + (-15))),
     150 + 180 * Real.sin (degToRad ((i : ℝ) * 360 / (SIDES : ℝ) + (-15))))

/-- `SimplifiedEvolutionaryGenerator.chromosomeToPuzzle`: radii 50/90/130
    and slot-to-angle conversion `15 + 30 · pos`. -/
def chromosomeToPuzzle (ch : Chromosome) : Puzzle :=
  ⟨ch.litEdges,
   ch.circles.enum.map fun ci =>
     ⟨([50, 90, 130] : List ℚ).getD ci.1 0,
      ci.2.emitters.map (fun pos => 15 + 30 * (pos : ℚ)),
      ci.2.blockers.map (fun pos => 15 + 30 * (pos : ℚ))⟩⟩

open Classical in
/-- The simplified oracle's blocker gate: a blocker is tested when it is on
    a different ring, or when its rotated world angle is within 1° of the
    emitter's firing angle modulo 180° alignment
    (`Math.abs(((blocker.angle - emitter.angle + 180) % 360) - 180) < 1`). -/
noncomputable def simpBlockerCand (em : EmitterPt) (b : BlockerPt) : Option ℝ :=
  if b.idx ≠ em.idx ∨ |jsModQ (b.angle - em.angle + 180) 360 - 180| < 1 then
    rayCircleT em.x em.y (dirX em) (dirY em) b.x b.y blockerRadius
  else none

/-- The running minimum over blocker and emitter candidates of the
    simplified oracle (edges are handled by the scanning loop below). -/
noncomputable def simpPreMin (em : EmitterPt) (selfIdx : ℕ) (emitters : List EmitterPt)
    (blockers : List BlockerPt) : Option (ℝ × HitTag) :=
  (blockers.filterMap (fun b => (simpBlockerCand em b).map (fun t => (t, HitTag.blockerTag)))
    ++ (emitters.eraseIdx selfIdx).filterMap
      (fun o => (emitterCand em o).map (fun t => (t, HitTag.emitterTag)))).foldl minStep none

open Classical in
/-- The simplified oracle's edge loop: walk the edges in index order with
    the running minimum; when an edge beats the minimum it becomes the
    current hit, and if it is the lit edge the loop exits with success. -/
noncomputable def simpEdgeScan (em : EmitterPt) (litIdx : ℕ) :
    List (ℕ × (ℝ × ℝ) × (ℝ × ℝ)) → Option ℝ → Bool
  | [], _ => false
  | e :: rest, minT =>
      match raySegT em.x em.y (dirX em) (dirY em) e.2.1.1 e.2.1.2 e.2.2.1 e.2.2.2 with
      | some t2 =>
          if (match minT with | none => True | some mt => t2 < mt) then
            if e.1 == litIdx then true else simpEdgeScan em litIdx rest (some t2)
          else simpEdgeScan em litIdx rest minT
      | none => simpEdgeScan em litIdx rest minT

/-- One emitter's hit test in the simplified oracle. -/
noncomputable def simpEmitterHits (em : EmitterPt) (selfIdx : ℕ) (emitters : List EmitterPt)
    (blockers : List BlockerPt) (edges : List (ℕ × (ℝ × ℝ) × (ℝ × ℝ))) (litIdx : ℕ) :
    Bool :=
  simpEdgeScan em litIdx edges ((simpPreMin em selfIdx emitters blockers).map Prod.fst)

/-- `SimplifiedEvolutionaryGenerator.isChromosomeSolvable`: the full
    1728-rotation search over the chromosome's puzzle form. -/
noncomputable def isChromosomeSolvable (ch : Chromosome) : Bool :=
  (List.range SIDES).any fun r0 =>
    (List.range SIDES).any fun r1 =>
      (List.range SIDES).any fun r2 =>
        (chromosomeToPuzzle ch).litEdges.all fun litIdx =>
          (emittersForAt 150 (-15) (chromosomeToPuzzle ch) r0 r1 r2).enum.any fun iem =>
            simpEmitterHits iem.2 iem.1
              (emittersForAt 150 (-15) (chromosomeToPuzzle ch) r0 r1 r2)
              (blockersForAt 150 (-15) (chromosomeToPuzzle ch) r0 r1 r2)
              (edgeLinesOf pointsSimp) litIdx

/-- `SimplifiedEvolutionaryGenerator.calculateFitness`: oracle verdict fed
    into the weighted fitness formula. -/
noncomputable def calculateFitness (ch : Chromosome) : ℚ :=
  calculateFitnessGiven (isChromosomeSolvable ch) ch

end SimplifiedOracle

section ClaimC3

/-- Claim C3: for every slot `s` in `[0,12)`, converting the slot to its
    angle (`15 + 30s`) and back is the identity:
    `angleToPosition (positionToAngle s) = s`. -/
theorem c3_position_angle_roundtrip (s : ℕ) (hs : s < 12) :
    angleToPosition (positionToAngle (s : ℤ)) = (s : ℤ) := by
  interval_cases s <;>
    norm_num [angleToPosition, positionToAngle, jsModQ, jsRound, jsTrunc] <;> decide

/-- Witness for C3 at the concrete slot `5`. -/
theorem c3_position_angle_roundtrip_witness :
    (5 : ℕ) < 12 ∧ angleToPosition (positionToAngle ((5 : ℕ) : ℤ)) = ((5 : ℕ) : ℤ) :=
  ⟨by decide, c3_position_angle_roundtrip 5 (by decide)⟩

end ClaimC3

section ClaimC6

/-- Every entry looked up in a brute-force rotation vector is below 12. -/
theorem aux_rot_getD_lt (r1 r2 r3 : ℕ) (h1 : r1 < 12) (h2 : r2 < 12) (h3 : r3 < 12)
    (i : ℕ) : List.getD [r1, r2, r3] i 0 < 12 := by
  match i with
  | 0 => simpa [List.getD] using h1
  | 1 => simpa [List.getD] using h2
  | 2 => simpa [List.getD] using h3
  | (n + 3) => simp [List.getD]

/-- If an edge enters the hit set through one emitter's contribution, either
    it was already in the set or that emitter can reach it in isolation. -/
theorem aux_mem_addEmitterHit (ch : Chromosome) (rots : List ℕ) (ci : ℕ)
    (hrot : ∀ i, rots.getD i 0 < 12) (acc : Finset ℕ) (pos e : ℕ)
    (h : e ∈ addEmitterHit ch rots ci acc pos) :
    e ∈ acc ∨ canEmitterHitEdge pos e ci = true := by
  unfold addEmitterHit at h
  rcases hfind : firstEdgeHitBy (rotatedBeamAngle pos (rots.getD ci 0)) with _ | edge
  · rw [hfind, Option.elim_none] at h
    exact Or.inl h
  · rw [hfind, Option.elim_some] at h
    by_cases hb : isBeamBlockedChromosome ci ((pos + rots.getD ci 0) % 12) rots ch = true
    · rw [if_pos hb] at h
      exact Or.inl h
    · rw [if_neg hb] at h
      rcases Finset.mem_insert.mp h with he | he
      · subst he
        right
        have hpred := List.find?_some hfind
        refine List.any_eq_true.mpr ⟨rots.getD ci 0, List.mem_range.mpr (hrot ci), ?_⟩
        simpa using hpred
      · exact Or.inl he

/-- Folding one ring's emitters only adds edges reachable by some emitter of
    that ring in isolation. -/
theorem aux_mem_foldl_emitters (ch : Chromosome) (rots : List ℕ) (ci : ℕ)
    (hrot : ∀ i, rots.getD i 0 < 12) (l : List ℕ) (acc : Finset ℕ) (e : ℕ)
    (h : e ∈ l.foldl (addEmitterHit ch rots ci) acc) :
    e ∈ acc ∨ ∃ pos ∈ l, canEmitterHitEdge pos e ci = true := by
  induction l generalizing acc with
  | nil => exact Or.inl h
  | cons a t ih =>
      rcases ih (addEmitterHit ch rots ci acc a) h with hmem | ⟨pos, hp, hc⟩
      · rcases aux_mem_addEmitterHit ch rots ci hrot acc a e hmem with hmem' | hc
        · exact Or.inl hmem'
        · exact Or.inr ⟨a, List.mem_cons_self a t, hc⟩
      · exact Or.inr ⟨pos, List.mem_cons_of_mem a hp, hc⟩

/-- Folding all rings only adds edges reachable by some emitter in
    isolation. -/
theorem aux_mem_foldl_circles (ch : Chromosome) (rots : List ℕ)
    (hrot : ∀ i, rots.getD i 0 < 12) (l : List (ℕ × ChromoCircle)) (acc : Finset ℕ) (e : ℕ)
    (h : e ∈ l.foldl (fun acc ci => ci.2.emitters.foldl (addEmitterHit ch rots ci.1) acc) acc) :
    e ∈ acc ∨ ∃ ci ∈ l, ∃ pos ∈ ci.2.emitters, canEmitterHitEdge pos e ci.1 = true := by
  induction l generalizing acc with
  | nil => exact Or.inl h
  | cons a t ih =>
      rcases ih _ h with hmem | ⟨ci, hci, pos, hp, hc⟩
      · rcases aux_mem_foldl_emitters ch rots a.1 hrot a.2.emitters acc e hmem with hmem' | ⟨pos, hp, hc⟩
        · exact Or.inl hmem'
        · exact Or.inr ⟨a, List.mem_cons_self a t, pos, hp, hc⟩
      · exact Or.inr ⟨ci, List.mem_cons_of_mem a hci, pos, hp, hc⟩

/-- A chromosome solved by some in-range rotation vector passes the
    heuristic pre-filter. -/
theorem aux_solved_imp_heuristic (ch : Chromosome) (r1 r2 r3 : ℕ)
    (h1 : r1 < 12) (h2 : r2 < 12) (h3 : r3 < 12)
    (h : isPuzzleSolvedWithRotationsChromosome ch [r1, r2, r3] = true) :
    heuristicSolvabilityCheckChromosome ch = true := by
  have hrot : ∀ i, List.getD [r1, r2, r3] i 0 < 12 := aux_rot_getD_lt r1 r2 r3 h1 h2 h3
  unfold isPuzzleSolvedWithRotationsChromosome at h
  rw [List.all_eq_true] at h
  unfold heuristicSolvabilityCheckChromosome
  rw [List.all_eq_true]
  intro edge hedge
  have hmem := h edge hedge
  rw [decide_eq_true_iff] at hmem
  rcases aux_mem_foldl_circles ch [r1, r2, r3] hrot ch.circles.enum ∅ edge hmem with
    habs | ⟨ci, hci, pos, hp, hc⟩
  · exact absurd habs (Finset.not_mem_empty edge)
  · exact List.any_eq_true.mpr ⟨ci, hci, List.any_eq_true.mpr ⟨pos, hp, hc⟩⟩

/-- A brute-force-solvable chromosome passes the heuristic pre-filter. -/
theorem aux_brute_imp_heuristic (ch : Chromosome)
    (h : bruteForceSolvabilityCheckChromosome ch = true) :
    heuristicSolvabilityCheckChromosome ch = true := by
  unfold bruteForceSolvabilityCheckChromosome at h
  rcases List.any_eq_true.mp h with ⟨r1, hr1, h⟩
  rcases List.any_eq_true.mp h with ⟨r2, hr2, h⟩
  rcases List.any_eq_true.mp h with ⟨r3, hr3, h⟩
  exact aux_solved_imp_heuristic ch r1 r2 r3 (List.mem_range.mp hr1)
    (List.mem_range.mp hr2) (List.mem_range.mp hr3) h

/-- Claim C6: the solvability score is `1.0` exactly when the brute-force
    1728-rotation check succeeds; whenever the heuristic pre-filter
    (which ignores blockers and other emitters) fails, the brute-force
    check would fail too, so short-circuiting on the heuristic never
    changes the score. -/
theorem c6_solvability_score_iff_bruteforce (ch : Chromosome) :
    (calculateSolvabilityFromChromosome ch = 1 ↔
      bruteForceSolvabilityCheckChromosome ch = true) ∧
    (heuristicSolvabilityCheckChromosome ch = false →
      bruteForceSolvabilityCheckChromosome ch = false) := by
  have himp : heuristicSolvabilityCheckChromosome ch = false →
      bruteForceSolvabilityCheckChromosome ch = false := by
    intro hh
    cases hb : bruteForceSolvabilityCheckChromosome ch with
    | false => rfl
    | true =>
        have := aux_brute_imp_heuristic ch hb
        rw [hh] at this
        exact absurd this Bool.false_ne_true
  refine ⟨?_, himp⟩
  unfold calculateSolvabilityFromChromosome
  cases hh : heuristicSolvabilityCheckChromosome ch with
  | true =>
      cases hb : bruteForceSolvabilityCheckChromosome ch with
      | true => simp [hb]
      | false => simp [hb]
  | false =>
      have hb := himp hh
      simp [hb]

end ClaimC6

section ClaimC4C5

/-- A successful filling loop reaches its target length. -/
theorem aux_fillSlots_length (s : ℕ → ℚ) (other : List ℕ) (target : ℕ) :
    ∀ (fuel : ℕ) (acc : List ℕ) (i : ℕ) (l : List ℕ) (i' : ℕ),
      fillSlots s other target acc i fuel = some (l, i') → target ≤ l.length := by
  intro fuel
  induction fuel with
  | zero =>
      intro acc i l i' h
      unfold fillSlots at h
      split at h
      · cases h
        assumption
      · cases h
  | succ fuel ih =>
      intro acc i l i' h
      unfold fillSlots at h
      split at h
      · cases h
        assumption
      · split at h
        · exact ih _ _ _ _ h
        · exact ih _ _ _ _ h

/-- The filling loop never emits an element of the avoidance list. -/
theorem aux_fillSlots_avoid (s : ℕ → ℚ) (other : List ℕ) (target : ℕ) :
    ∀ (fuel : ℕ) (acc : List ℕ) (i : ℕ) (l : List ℕ) (i' : ℕ),
      (∀ x ∈ acc, x ∉ other) →
      fillSlots s other target acc i fuel = some (l, i') → ∀ x ∈ l, x ∉ other := by
  intro fuel
  induction fuel with
  | zero =>
      intro acc i l i' hacc h
      unfold fillSlots at h
      split at h
      · cases h
        exact hacc
      · cases h
  | succ fuel ih =>
      intro acc i l i' hacc h
      unfold fillSlots at h
      split at h
      · cases h
        exact hacc
      · split at h
        case _ hfresh => exact ih _ _ _ _ hacc h
        case _ hfresh =>
            refine ih _ _ _ _ ?_ h
            intro x hx
            rcases List.mem_append.mp hx with hx | hx
            · exact hacc x hx
            · rcases List.mem_singleton.mp hx with rfl
              intro hmem
              exact hfresh (by
                simp only [Bool.or_eq_true, List.elem_eq_mem, List.contains, decide_eq_true_iff]
                exact Or.inr hmem)

/-- Ring construction: every built ring reaches its emitter target and has
    blockers disjoint from its emitters. -/
theorem aux_buildCircles_spec (s : ℕ → ℚ) (fuel : ℕ) :
    ∀ (pairs : List (ℕ × ℕ)) (i : ℕ) (cs : List ChromoCircle) (i' : ℕ),
      buildCircles s fuel pairs i = some (cs, i') →
      ∀ c ∈ cs, (∃ p ∈ pairs, p.1 ≤ c.emitters.length) ∧ ∀ x ∈ c.blockers, x ∉ c.emitters := by
  intro pairs
  induction pairs with
  | nil =>
      intro i cs i' h c hc
      unfold buildCircles at h
      cases h
      cases hc
  | cons p rest ih =>
      intro i cs i' h c hc
      rcases p with ⟨ne, nb⟩
      unfold buildCircles at h
      rcases Option.bind_eq_some.mp h with ⟨em, hem, h⟩
      rcases Option.bind_eq_some.mp h with ⟨bl, hbl, h⟩
      rcases Option.bind_eq_some.mp h with ⟨cs0, hcs, h⟩
      simp only [Option.some_inj, Prod.mk.injEq] at h
      obtain ⟨rfl, rfl⟩ := h
      rcases List.mem_cons.mp hc with rfl | hc
      · refine ⟨⟨(ne, nb), List.mem_cons_self _ _,
          aux_fillSlots_length s [] ne fuel [] i _ _ hem⟩, ?_⟩
        exact aux_fillSlots_avoid s em.1 nb fuel [] em.2 _ _ (by intro x hx; cases hx) hbl
      · have hrec := ih _ _ _ hcs c hc
        rcases hrec.1 with ⟨q, hq, hlen⟩
        exact ⟨⟨q, List.mem_cons_of_mem _ hq, hlen⟩, hrec.2⟩

/-- The random-distribution loop keeps every container at or above the
    minimum (the minimum is 0 or 1 at every call site). -/
theorem aux_distLoop_min (s : ℕ → ℚ) (containers m : ℕ) (hm : m ≤ 1) :
    ∀ (k : ℕ) (dist : List ℕ) (i : ℕ),
      (∀ x ∈ dist, m ≤ x) → ∀ x ∈ (distLoop s containers dist i k).1, m ≤ x := by
  intro k
  induction k with
  | zero =>
      intro dist i hd
      simpa [distLoop] using hd
  | succ k ih =>
      intro dist i hd
      unfold distLoop
      refine ih _ _ ?_
      intro x hx
      rcases List.mem_or_eq_of_mem_set hx with hx | rfl
      · exact hd x hx
      · by_cases hc : (⌊s i * (containers : ℚ)⌋).toNat < dist.length
        · have hmem : dist.getD (⌊s i * (containers : ℚ)⌋).toNat 0 ∈ dist := by
            rw [List.getD_eq_getElem _ _ hc]
            exact List.getElem_mem hc
          have := hd _ hmem
          omega
        · rw [List.getD_eq_default _ _ (Nat.le_of_not_lt hc)]
          omega

/-- Every container of `distributeElements(total, n, minPer)` holds at
    least `minPer` elements. -/
theorem aux_distributeElements_min (total : ℤ) (containers m : ℕ) (hm : m ≤ 1)
    (s : ℕ → ℚ) (i : ℕ) :
    ∀ x ∈ (distributeElements total containers m s i).1, m ≤ x := by
  unfold distributeElements
  exact aux_distLoop_min s containers m hm _ _ _ (by
    intro x hx
    rw [List.eq_of_mem_replicate hx])

/-- Repairing one ring leaves it with at least one emitter and with
    blockers disjoint from emitters. -/
theorem aux_repairCircle_spec (s : ℕ → ℚ) (fuel : ℕ) (c : ChromoCircle) (i : ℕ)
    (c' : ChromoCircle) (i' : ℕ) (h : repairCircle s fuel c i = some (c', i')) :
    c'.emitters ≠ [] ∧ ∀ p ∈ c'.emitters, p ∉ c'.blockers := by
  unfold repairCircle at h
  split at h
  case isTrue hemp =>
      rcases Option.bind_eq_some.mp h with ⟨pk, hre, h⟩
      simp only [Option.some_inj, Prod.mk.injEq] at h
      obtain ⟨rfl, rfl⟩ := h
      refine ⟨by simp, ?_⟩
      intro p hp hmem
      have hf := (List.mem_filter.mp hmem).2
      simp only [List.contains, List.elem_eq_mem, decide_eq_true_iff, decide_not,
        Bool.not_eq_true'] at hf
      exact absurd hp (by simpa using hf)
  case isFalse hemp =>
      simp only [Option.some_inj, Prod.mk.injEq] at h
      obtain ⟨rfl, rfl⟩ := h
      refine ⟨by simpa [List.isEmpty_iff] using hemp, ?_⟩
      intro p hp hmem
      have hf := (List.mem_filter.mp hmem).2
      simp only [List.contains, List.elem_eq_mem, decide_eq_true_iff, decide_not,
        Bool.not_eq_true'] at hf
      exact absurd hp (by simpa using hf)

/-- Sequential ring repair: every output ring is non-empty with disjoint
    emitter/blocker slots. -/
theorem aux_repairCircles_spec (s : ℕ → ℚ) (fuel : ℕ) :
    ∀ (cs : List ChromoCircle) (i : ℕ) (cs' : List ChromoCircle) (i' : ℕ),
      repairCircles s fuel cs i = some (cs', i') →
      ∀ c ∈ cs', c.emitters ≠ [] ∧ ∀ p ∈ c.emitters, p ∉ c.blockers := by
  intro cs
  induction cs with
  | nil =>
      intro i cs' i' h c hc
      unfold repairCircles at h
      simp only [Option.some_inj, Prod.mk.injEq] at h
      obtain ⟨rfl, rfl⟩ := h
      cases hc
  | cons c0 rest ih =>
      intro i cs' i' h c hc
      unfold repairCircles at h
      rcases Option.bind_eq_some.mp h with ⟨c1, h0, h⟩
      rcases Option.bind_eq_some.mp h with ⟨cs1, h1, h⟩
      simp only [Option.some_inj, Prod.mk.injEq] at h
      obtain ⟨rfl, rfl⟩ := h
      rcases List.mem_cons.mp hc with rfl | hc
      · exact aux_repairCircle_spec s fuel c0 i _ _ (by rw [h0])
      · exact ih _ _ _ h1 c hc

/-- Claim C4: every chromosome entering fitness evaluation has at least one
    emitter on each ring — initial chromosomes force one emitter per ring
    through the `[1,1,1]`-seeded distribution, `repairChromosome` re-adds
    an emitter to any empty ring of an offspring, and the simplified
    generator's mutation ends with the same per-ring repair block. -/
theorem c4_every_ring_nonempty :
    (∀ (config : EvoConfig) (s : ℕ → ℚ) (i fuel : ℕ) (ch : Chromosome) (i' : ℕ),
        evoCreateRandomChromosome config s i fuel = some (ch, i') → ringsNonEmpty ch) ∧
    (∀ (ch : Chromosome) (config : EvoConfig) (s : ℕ → ℚ) (i fuel : ℕ)
        (ch' : Chromosome) (i' : ℕ),
        repairChromosome ch config s i fuel = some (ch', i') → ringsNonEmpty ch') ∧
    (∀ (s : ℕ → ℚ) (fuel : ℕ) (cs : List ChromoCircle) (i : ℕ)
        (cs' : List ChromoCircle) (i' : ℕ),
        simpEnsureEmitters s fuel cs i = some (cs', i') → ∀ c ∈ cs', c.emitters ≠ []) := by
  refine ⟨?_, ?_, ?_⟩
  · intro config s i fuel ch i' h c hc
    unfold evoCreateRandomChromosome at h
    rcases Option.bind_eq_some.mp h with ⟨lit, hlit, h⟩
    rcases Option.bind_eq_some.mp h with ⟨cs0, hbc, h⟩
    simp only [Option.some_inj, Prod.mk.injEq] at h
    obtain ⟨rfl, rfl⟩ := h
    have hspec := aux_buildCircles_spec s fuel _ _ _ _ hbc c hc
    rcases hspec.1 with ⟨p, hp, hlen⟩
    have hone : 1 ≤ p.1 := by
      have hmem := (List.of_mem_zip hp).1
      exact aux_distributeElements_min _ 3 1 (by norm_num) s _ p.1 hmem
    intro hnil
    rw [hnil] at hlen
    simp at hlen
    omega
  · intro ch config s i fuel ch' i' h c hc
    unfold repairChromosome at h
    rcases Option.bind_eq_some.mp h with ⟨l1, h1, h⟩
    rcases Option.bind_eq_some.mp h with ⟨l2, h2, h⟩
    rcases Option.bind_eq_some.mp h with ⟨cs0, h3, h⟩
    simp only [Option.some_inj, Prod.mk.injEq] at h
    obtain ⟨rfl, rfl⟩ := h
    exact (aux_repairCircles_spec s fuel _ _ _ _ h3 c hc).1
  · intro s fuel cs
    induction cs with
    | nil =>
        intro i cs' i' h c hc
        unfold simpEnsureEmitters at h
        simp only [Option.some_inj, Prod.mk.injEq] at h
        obtain ⟨rfl, rfl⟩ := h
        cases hc
    | cons c0 rest ih =>
        intro i cs' i' h c hc
        unfold simpEnsureEmitters at h
        split at h
        case isTrue hemp =>
            rcases Option.bind_eq_some.mp h with ⟨pk, hre, h⟩
            rcases Option.bind_eq_some.mp h with ⟨cs1, hrest, h⟩
            simp only [Option.some_inj, Prod.mk.injEq] at h
            obtain ⟨rfl, rfl⟩ := h
            rcases List.mem_cons.mp hc with rfl | hc
            · simp
            · exact ih _ _ _ hrest c hc
        case isFalse hemp =>
            rcases Option.bind_eq_some.mp h with ⟨cs1, hrest, h⟩
            simp only [Option.some_inj, Prod.mk.injEq] at h
            obtain ⟨rfl, rfl⟩ := h
            rcases List.mem_cons.mp hc with rfl | hc
            · simpa [List.isEmpty_iff] using hemp
            · exact ih _ _ _ hrest c hc

/-- Claim C5: for every ring of a generated chromosome the emitter and
    blocker slot sets are disjoint — slot placement resamples on collision
    with anything already on the ring, and the evolutionary repair removes
    every blocker overlapping an emitter. -/
theorem c5_slots_disjoint :
    (∀ (config : SimpConfig) (s : ℕ → ℚ) (i fuel : ℕ) (ch : Chromosome) (i' : ℕ),
        simpCreateRandomChromosome config s i fuel = some (ch, i') → slotsDisjoint ch) ∧
    (∀ (ch : Chromosome) (config : EvoConfig) (s : ℕ → ℚ) (i fuel : ℕ)
        (ch' : Chromosome) (i' : ℕ),
        repairChromosome ch config s i fuel = some (ch', i') → slotsDisjoint ch') := by
  constructor
  · intro config s i fuel ch i' h c hc
    unfold simpCreateRandomChromosome at h
    rcases Option.bind_eq_some.mp h with ⟨lit, hlit, h⟩
    rcases Option.bind_eq_some.mp h with ⟨cs0, hbc, h⟩
    simp only [Option.some_inj, Prod.mk.injEq] at h
    obtain ⟨rfl, rfl⟩ := h
    intro p hp hmem
    exact (aux_buildCircles_spec s fuel _ _ _ _ hbc c hc).2 p hmem hp
  · intro ch config s i fuel ch' i' h c hc
    unfold repairChromosome at h
    rcases Option.bind_eq_some.mp h with ⟨l1, h1, h⟩
    rcases Option.bind_eq_some.mp h with ⟨l2, h2, h⟩
    rcases Option.bind_eq_some.mp h with ⟨cs0, h3, h⟩
    simp only [Option.some_inj, Prod.mk.injEq] at h
    obtain ⟨rfl, rfl⟩ := h
    exact (aux_repairCircles_spec s fuel _ _ _ _ h3 c hc).2

/-- Witness for C4: a creation run, a repair run and a mutation-repair run
    at concrete inputs, each yielding non-empty rings. -/
theorem c4_every_ring_nonempty_witness :
    ringsNonEmpty ⟨[], [⟨[0], []⟩, ⟨[0], []⟩, ⟨[0], []⟩]⟩ ∧
    ringsNonEmpty ⟨[0, 1, 2], [⟨[1], [2]⟩, ⟨[3], []⟩, ⟨[5], []⟩]⟩ ∧
    (⟨[2], []⟩ : ChromoCircle).emitters ≠ [] :=
  ⟨c4_every_ring_nonempty.1 ⟨(0, -1), (0, 0), (3, 2), (0, -1), (0, 0, 0, 0)⟩ (fun _ => 0) 0 3
      ⟨[], [⟨[0], []⟩, ⟨[0], []⟩, ⟨[0], []⟩]⟩ 6
      (by norm_num [evoCreateRandomChromosome, fillSlots, drawSlot, drawFromRange,
        distributeElements, distLoop, buildCircles, sortNat, Option.bind, List.zip]),
   c4_every_ring_nonempty.2.1 ⟨[0, 1, 2], [⟨[1], [2]⟩, ⟨[3], []⟩, ⟨[5], []⟩]⟩
      ⟨(3, 3), (0, 0), (0, 0), (0, 0), (0, 0, 0, 0)⟩ (fun _ => 0) 0 0
      ⟨[0, 1, 2], [⟨[1], [2]⟩, ⟨[3], []⟩, ⟨[5], []⟩]⟩ 0 (by decide),
   c4_every_ring_nonempty.2.2 (fun _ => 0) 0 [⟨[2], []⟩] 0 [⟨[2], []⟩] 0 (by decide)
      ⟨[2], []⟩ (by simp)⟩

/-- Witness for C5: a simplified-generator creation run and a repair run at
    concrete inputs, each yielding disjoint slots on every ring. -/
theorem c5_slots_disjoint_witness :
    slotsDisjoint ⟨[], [⟨[0], []⟩, ⟨[0], []⟩, ⟨[0], []⟩]⟩ ∧
    slotsDisjoint ⟨[0, 1, 2], [⟨[1], [2]⟩, ⟨[3], []⟩, ⟨[5], []⟩]⟩ :=
  ⟨c5_slots_disjoint.1 ⟨(0, -1), (3, 2), (0, -1)⟩ (fun _ => 0) 0 3
      ⟨[], [⟨[0], []⟩, ⟨[0], []⟩, ⟨[0], []⟩]⟩ 6
      (by norm_num [simpCreateRandomChromosome, fillSlots, drawSlot, drawFromRange,
        distributeElements, distLoop, buildCircles, sortNat, Option.bind, List.zip]),
   c5_slots_disjoint.2 ⟨[0, 1, 2], [⟨[1], [2]⟩, ⟨[3], []⟩, ⟨[5], []⟩]⟩
      ⟨(3, 3), (0, 0), (0, 0), (0, 0), (0, 0, 0, 0)⟩ (fun _ => 0) 0 0
      ⟨[0, 1, 2], [⟨[1], [2]⟩, ⟨[3], []⟩, ⟨[5], []⟩]⟩ 0 (by decide)⟩

/-- Witness for C6: a chromosome with a lit edge and no emitters fails the
    heuristic, and by the claim theorem the brute-force check fails too. -/
theorem c6_solvability_score_iff_bruteforce_witness :
    heuristicSolvabilityCheckChromosome ⟨[3], [⟨[], []⟩, ⟨[], []⟩, ⟨[], []⟩]⟩ = false ∧
    bruteForceSolvabilityCheckChromosome ⟨[3], [⟨[], []⟩, ⟨[], []⟩, ⟨[], []⟩]⟩ = false :=
  ⟨by decide,
   (c6_solvability_score_iff_bruteforce ⟨[3], [⟨[], []⟩, ⟨[], []⟩, ⟨[], []⟩]⟩).2 (by decide)⟩

end ClaimC4C5

section ClaimC8

/-- Counterexample to C8 as stated: a chromosome with two emitters in total
    and an empty third ring, whose simplified distribution score is `0.1`,
    not zero. -/
theorem c8_distribution_zero_counterexample :
    0 < ((⟨[0], [⟨[5], []⟩, ⟨[7], []⟩, ⟨[], []⟩]⟩ : Chromosome).circles.map
        (fun c => c.emitters.length)).sum ∧
    (⟨[], []⟩ : ChromoCircle) ∈
      (⟨[0], [⟨[5], []⟩, ⟨[7], []⟩, ⟨[], []⟩]⟩ : Chromosome).circles ∧
    calculateDistributionScore ⟨[0], [⟨[5], []⟩, ⟨[7], []⟩, ⟨[], []⟩]⟩ ≠ 0 := by
  refine ⟨by decide, by decide, ?_⟩
  norm_num [calculateDistributionScore]

/-- Claim C8 (amended): with at least one emitter in total and an empty
    ring, the simplified generator's distribution score is the fixed
    penalty value `0.1` (not zero), and the full evolutionary generator's
    distribution fitness can even be strictly positive with an empty ring
    (emitter counts `[2,2,0]` give `exp(-4/9) - 0.3 ≥ 5/9 - 0.3 > 0`). -/
theorem c8_distribution_empty_ring_penalty :
    (∀ ch : Chromosome,
        (ch.circles.map (fun c => c.emitters.length)).sum ≠ 0 →
        (∃ c ∈ ch.circles, c.emitters = []) →
        calculateDistributionScore ch = 0.1) ∧
    0 < calculateDistributionFitness ⟨[0], [⟨[0, 1], []⟩, ⟨[2, 3], []⟩, ⟨[], []⟩]⟩ := by
  constructor
  · intro ch htot ⟨c, hc, hcnil⟩
    unfold calculateDistributionScore
    rw [if_neg htot, if_pos]
    have h0 : (0 : ℕ) ∈ ch.circles.map (fun c => c.emitters.length) :=
      List.mem_map.mpr ⟨c, hc, by simp [hcnil]⟩
    exact List.length_pos.mpr (List.ne_nil_of_mem (List.mem_filter.mpr ⟨h0, by simp⟩))
  · have harg : calculateDistributionFitness ⟨[0], [⟨[0, 1], []⟩, ⟨[2, 3], []⟩, ⟨[], []⟩]⟩ =
        max 0 (Real.exp (-(4 / 9 : ℝ)) - 0.3) := by
      norm_num [calculateDistributionFitness]
    rw [harg]
    have hexp : (5 / 9 : ℝ) ≤ Real.exp (-(4 / 9 : ℝ)) := by
      have := Real.add_one_le_exp (-(4 / 9) : ℝ)
      linarith
    refine lt_max_iff.mpr (Or.inr ?_)
    norm_num
    linarith

/-- Witness for C8 (amended) at a concrete chromosome with one empty ring
    and two emitters in total. -/
theorem c8_distribution_empty_ring_penalty_witness :
    calculateDistributionScore ⟨[2], [⟨[4], []⟩, ⟨[], []⟩, ⟨[6], []⟩]⟩ = 0.1 ∧
    0 < calculateDistributionFitness ⟨[0], [⟨[0, 1], []⟩, ⟨[2, 3], []⟩, ⟨[], []⟩]⟩ :=
  ⟨c8_distribution_empty_ring_penalty.1 ⟨[2], [⟨[4], []⟩, ⟨[], []⟩, ⟨[6], []⟩]⟩
      (by decide) ⟨⟨[], []⟩, by simp, rfl⟩,
   c8_distribution_empty_ring_penalty.2⟩

end ClaimC8

section ClaimC7

/-- For an inverted range and a random value in `[0,1)`, the selected lit
    count lands in `[maxLit + 1, minLit]`. -/
theorem aux_genNumLit_bounds (minLit maxLit : ℤ) (r : ℚ) (h0 : 0 ≤ r) (h1 : r < 1)
    (hinv : maxLit < minLit) :
    maxLit + 1 ≤ genNumLit minLit maxLit r ∧ genNumLit minLit maxLit r ≤ minLit := by
  unfold genNumLit
  have hk : ((maxLit - minLit + 1 : ℤ) : ℚ) ≤ 0 := by
    have : maxLit - minLit + 1 ≤ 0 := by omega
    exact_mod_cast this
  constructor
  · have hge : ((maxLit - minLit + 1 : ℤ) : ℚ) ≤ r * ((maxLit - minLit + 1 : ℤ) : ℚ) := by
      nlinarith
    have := Int.le_floor.mpr hge
    omega
  · have hle : r * ((maxLit - minLit + 1 : ℤ) : ℚ) ≤ 0 := mul_nonpos_of_nonneg_of_nonpos h0 hk
    have : (⌊r * ((maxLit - minLit + 1 : ℤ) : ℚ)⌋ : ℤ) ≤ 0 := by
      have := Int.floor_le_floor hle
      simpa using this
    omega

/-- A successful lit-edge fill ends with exactly `max numLit acc.length`
    elements. -/
theorem aux_genFillLit_length (s : ℕ → ℚ) (numLit : ℤ) :
    ∀ (fuel : ℕ) (acc : List ℤ) (i : ℕ) (l : List ℤ) (i' : ℕ),
      genFillLit s numLit acc i fuel = some (l, i') →
      (l.length : ℤ) = max numLit (acc.length : ℤ) := by
  intro fuel
  induction fuel with
  | zero =>
      intro acc i l i' h
      unfold genFillLit at h
      split at h
      · cases h
      · cases h
        omega
  | succ fuel ih =>
      intro acc i l i' h
      unfold genFillLit at h
      split at h
      case _ hlt =>
        split at h
        · have := ih _ _ _ _ h
          omega
        · have := ih _ _ _ _ h
          simp only [List.length_append, List.length_singleton] at this
          push_cast at this ⊢
          omega
      case _ hlt =>
        cases h
        omega

/-- Inserting into a sorted integer list adds one element. -/
theorem aux_insertAscInt_length (x : ℤ) (l : List ℤ) :
    (insertAscInt x l).length = l.length + 1 := by
  induction l with
  | nil => rfl
  | cons y rest ih =>
      unfold insertAscInt
      split
      · rfl
      · simp [ih]

/-- The ascending sort preserves length. -/
theorem aux_sortInt_length (l : List ℤ) : (sortInt l).length = l.length := by
  unfold sortInt
  induction l with
  | nil => rfl
  | cons y rest ih => simp [aux_insertAscInt_length, ih]

/-- With the constant-zero stream and target 13, the lit-edge loop is stuck
    as soon as slot 0 is taken: every further draw is 0 and is rejected. -/
theorem aux_genFillLit_zero_stuck :
    ∀ (fuel : ℕ) (acc : List ℤ) (i : ℕ), acc.contains 0 = true → (acc.length : ℤ) < 13 →
      genFillLit (fun _ => (0 : ℚ)) 13 acc i fuel = none := by
  intro fuel
  induction fuel with
  | zero =>
      intro acc i hmem hlen
      unfold genFillLit
      rw [if_pos hlen]
  | succ fuel ih =>
      intro acc i hmem hlen
      unfold genFillLit
      rw [if_pos hlen]
      have hdraw : (⌊(fun _ => (0 : ℚ)) i * 12⌋ : ℤ) = 0 := by norm_num
      rw [hdraw, if_pos hmem]
      exact ih acc (i + 1) hmem hlen

/-- Counterexample to C7 as stated: `generatePuzzle(13, 12)` (an inverted
    range) never returns a puzzle, for any amount of fuel — the lit-edge
    sampling loop can never gather 13 distinct slots. -/
theorem c7_generation_counterexample :
    ¬ ∃ (fuel : ℕ) (p : GenPuzzle) (i' : ℕ),
        generatePuzzleModel 13 12 (fun _ => (0 : ℚ)) 0 fuel = some (p, i') := by
  rintro ⟨fuel, p, i', h⟩
  unfold generatePuzzleModel at h
  have hnum : genNumLit 13 12 ((fun _ => (0 : ℚ)) 0) = 13 := by norm_num [genNumLit]
  rw [hnum] at h
  have hfill : genFillLit (fun _ => (0 : ℚ)) 13 [] 1 fuel = none := by
    cases fuel with
    | zero => rfl
    | succ fuel =>
        unfold genFillLit
        rw [if_pos (by norm_num)]
        have hdraw : (⌊(fun _ => (0 : ℚ)) 1 * 12⌋ : ℤ) = 0 := by norm_num
        rw [hdraw, if_neg (by decide)]
        simpa using aux_genFillLit_zero_stuck fuel [0] 2 (by decide) (by decide)
  rw [hfill] at h
  cases h

/-- Claim C7 (amended): an unknown difficulty string falls back to the
    medium preset, and a call with an inverted range `maxLit < minLit`
    (with `maxLit ≥ 0`) that does return a puzzle returns a non-empty
    lit-edge set whose size lies in `[maxLit + 1, minLit]`; however such a
    call need not return at all — for `minLit = 13 > 12 = maxLit` the
    generator diverges (see the counterexample), so generation does not
    always produce a puzzle. -/
theorem c7_fallback_and_inverted_range_bounds :
    (∀ d : String, d ≠ "easy" → d ≠ "medium" → d ≠ "hard" →
        getDifficultyConfig d = getDifficultyConfig "medium") ∧
    (∀ (minLit maxLit : ℤ) (s : ℕ → ℚ) (i fuel : ℕ) (p : GenPuzzle) (i' : ℕ),
        (∀ j, 0 ≤ s j ∧ s j < 1) → maxLit < minLit → 0 ≤ maxLit →
        generatePuzzleModel minLit maxLit s i fuel = some (p, i') →
        p.litEdges ≠ [] ∧ maxLit + 1 ≤ (p.litEdges.length : ℤ) ∧
          (p.litEdges.length : ℤ) ≤ minLit) := by
  constructor
  · intro d h1 h2 h3
    unfold getDifficultyConfig
    rw [if_neg h1, if_neg h2, if_neg h3]
    decide
  · intro minLit maxLit s i fuel p i' hs hinv hmax h
    unfold generatePuzzleModel at h
    rcases Option.bind_eq_some.mp h with ⟨lit, hlit, h⟩
    rcases Option.bind_eq_some.mp h with ⟨cs, hcs, h⟩
    simp only [Option.some_inj, Prod.mk.injEq] at h
    obtain ⟨rfl, rfl⟩ := h
    have hnum := aux_genNumLit_bounds minLit maxLit (s i) (hs i).1 (hs i).2 hinv
    have hlen := aux_genFillLit_length s (genNumLit minLit maxLit (s i)) fuel [] (i + 1)
      lit.1 lit.2 hlit
    simp only [List.length_nil, Nat.cast_zero] at hlen
    have hmaxeq : max (genNumLit minLit maxLit (s i)) (0 : ℤ) =
        genNumLit minLit maxLit (s i) := by omega
    rw [hmaxeq] at hlen
    have hslen : ((sortInt lit.1).length : ℤ) = (lit.1.length : ℤ) := by
      rw [aux_sortInt_length]
    refine ⟨?_, ?_, ?_⟩
    · intro hnil
      have hnil' : sortInt lit.1 = [] := hnil
      have : ((sortInt lit.1).length : ℤ) = 0 := by rw [hnil']; rfl
      rw [hslen, hlen] at this
      omega
    · show maxLit + 1 ≤ ((sortInt lit.1).length : ℤ)
      rw [hslen, hlen]
      omega
    · show ((sortInt lit.1).length : ℤ) ≤ minLit
      rw [hslen, hlen]
      omega

set_option maxHeartbeats 2000000 in
/-- Witness for C7 (amended): the unknown difficulty string `"extreme"`
    falls back to the medium preset, and a concrete inverted-range run
    `generatePuzzle(2, 1)` returns two lit edges — inside `[maxLit+1, minLit]`. -/
theorem c7_fallback_and_inverted_range_bounds_witness :
    getDifficultyConfig "extreme" = getDifficultyConfig "medium" ∧
    ((⟨[1, 2], [⟨50, [45], [195]⟩, ⟨90, [75, 315], [345, 15]⟩,
        ⟨130, [105], [135]⟩]⟩ : GenPuzzle).litEdges ≠ [] ∧
      1 + 1 ≤ (((⟨[1, 2], [⟨50, [45], [195]⟩, ⟨90, [75, 315], [345, 15]⟩,
        ⟨130, [105], [135]⟩]⟩ : GenPuzzle)).litEdges.length : ℤ) ∧
      (((⟨[1, 2], [⟨50, [45], [195]⟩, ⟨90, [75, 315], [345, 15]⟩,
        ⟨130, [105], [135]⟩]⟩ : GenPuzzle)).litEdges.length : ℤ) ≤ 2) :=
  ⟨c7_fallback_and_inverted_range_bounds.1 "extreme" (by decide) (by decide) (by decide),
   c7_fallback_and_inverted_range_bounds.2 2 1 (fun j => ((j % 12 : ℕ) : ℚ) / 12) 0 2
      ⟨[1, 2], [⟨50, [45], [195]⟩, ⟨90, [75, 315], [345, 15]⟩, ⟨130, [105], [135]⟩]⟩ 17
      (by
        intro j
        refine ⟨by positivity, ?_⟩
        rw [div_lt_one (by norm_num)]
        exact_mod_cast Nat.mod_lt j (by norm_num))
      (by decide) (by decide)
      (by norm_num [generatePuzzleModel, genFillLit, genNumLit, genBuildCircles, genFillRing,
        genPlaceTargets, sortInt, insertAscInt, setHead, positionToAngle, angleToPosition,
        jsModQ, jsRound, jsTrunc, Option.bind, List.enum, List.enumFrom, Int.tmod])⟩

end ClaimC7

section ClaimC9

set_option maxHeartbeats 2000000 in
/-- Counterexample to C9 as stated: two puzzles with the same lit edges,
    the denser one's rings a superset of the sparser one's (one extra
    emitter at angle 195 on the inner ring), yet the denser puzzle's
    `overallDifficulty` is strictly smaller — the extra emitter lowers
    `estimateMinimumRotations` and raises the solution-uniqueness reward. -/
theorem c9_difficulty_monotonicity_counterexample :
    (⟨[0], [⟨50, [15, 195], []⟩, ⟨90, [], []⟩, ⟨130, [], []⟩]⟩ : GenPuzzle).litEdges =
      (⟨[0], [⟨50, [15], []⟩, ⟨90, [], []⟩, ⟨130, [], []⟩]⟩ : GenPuzzle).litEdges ∧
    List.Sublist ([15] : List ℚ) [15, 195] ∧
    overallDifficulty ⟨[0], [⟨50, [15, 195], []⟩, ⟨90, [], []⟩, ⟨130, [], []⟩]⟩ <
      overallDifficulty ⟨[0], [⟨50, [15], []⟩, ⟨90, [], []⟩, ⟨130, [], []⟩]⟩ := by
  refine ⟨rfl, by simp, ?_⟩
  norm_num [overallDifficulty, basicMetricsScore, solutionComplexityScore, cognitiveLoadScore,
    aestheticScoreAnalyzer, totalEmittersOf, totalBlockersOf, estimateMinimumRotations,
    calculateCircleInterdependency, calculateSolutionUniqueness, circlePairs, listMinQ,
    hasRotationalSymmetry, calculateSymmetryFactor, calculateWorkingMemoryLoad,
    calculateVisualComplexity, consecutiveGroupsCount, checkForCommonPatterns,
    calculateSpacingRegularity, calculatePatternDifficulty, calculateVisualBalance,
    calculateElegance, listMax, listMin, jsModQ, jsTrunc, Int.tmod, List.range,
    List.range.loop]

/-- Claim C9 (amended): the analyzer's `overallDifficulty` is not monotone
    in density (see the counterexample), but its `basicMetrics` component
    is: with the same lit edges and at least as many emitters and blockers,
    the denser puzzle's basic-metrics score is at least the sparser one's. -/
theorem c9_basic_metrics_monotone (p q : GenPuzzle)
    (hlit : q.litEdges = p.litEdges)
    (he : totalEmittersOf q ≤ totalEmittersOf p)
    (hb : totalBlockersOf q ≤ totalBlockersOf p) :
    basicMetricsScore q ≤ basicMetricsScore p := by
  unfold basicMetricsScore
  rw [hlit]
  have h1 : min ((totalEmittersOf q : ℚ) / 12) 1 ≤ min ((totalEmittersOf p : ℚ) / 12) 1 :=
    min_le_min ((div_le_div_iff_of_pos_right (by norm_num)).mpr (by exact_mod_cast he)) le_rfl
  have h2 : min ((totalBlockersOf q : ℚ) / 8) 1 ≤ min ((totalBlockersOf p : ℚ) / 8) 1 :=
    min_le_min ((div_le_div_iff_of_pos_right (by norm_num)).mpr (by exact_mod_cast hb)) le_rfl
  linarith

/-- Witness for C9 (amended) at the concrete sparse/dense pair. -/
theorem c9_basic_metrics_monotone_witness :
    basicMetricsScore ⟨[0], [⟨50, [15], []⟩, ⟨90, [], []⟩, ⟨130, [], []⟩]⟩ ≤
      basicMetricsScore ⟨[0], [⟨50, [15, 195], []⟩, ⟨90, [], []⟩, ⟨130, [], []⟩]⟩ :=
  c9_basic_metrics_monotone
    ⟨[0], [⟨50, [15, 195], []⟩, ⟨90, [], []⟩, ⟨130, [], []⟩]⟩
    ⟨[0], [⟨50, [15], []⟩, ⟨90, [], []⟩, ⟨130, [], []⟩]⟩
    rfl (by decide) (by decide)

end ClaimC9

section ClaimC1

/-- Claim C1: on the canonical 12-gon vertex list, `isPuzzleSolvable`
    returns true exactly when some rotation vector `[r0, r1, r2]` with each
    component in `{0,…,11}` (applied as 30° multiples per ring) makes every
    lit edge the nearest-obstacle hit of some emitter; in particular a
    puzzle with no lit edges is reported solvable. -/
theorem c1_isPuzzleSolvable_iff_rotation_exists (p : Puzzle) :
    (isPuzzleSolvable p (getPolygonPoints SIDES 180 200) = true ↔
      ∃ r0 r1 r2 : ℕ, r0 < 12 ∧ r1 < 12 ∧ r2 < 12 ∧
        ∀ lit ∈ p.litEdges,
          ∃ iem ∈ (emittersForAt CENTER SHAPE_ROTATION p r0 r1 r2).enum,
            emitterHitsLit iem.2 iem.1 (emittersForAt CENTER SHAPE_ROTATION p r0 r1 r2)
              (blockersForAt CENTER SHAPE_ROTATION p r0 r1 r2)
              (edgeLinesOf (getPolygonPoints SIDES 180 200)) lit = true) ∧
    (p.litEdges = [] → isPuzzleSolvable p (getPolygonPoints SIDES 180 200) = true) := by
  have hiff : isPuzzleSolvable p (getPolygonPoints SIDES 180 200) = true ↔
      ∃ r0 r1 r2 : ℕ, r0 < 12 ∧ r1 < 12 ∧ r2 < 12 ∧
        ∀ lit ∈ p.litEdges,
          ∃ iem ∈ (emittersForAt CENTER SHAPE_ROTATION p r0 r1 r2).enum,
            emitterHitsLit iem.2 iem.1 (emittersForAt CENTER SHAPE_ROTATION p r0 r1 r2)
              (blockersForAt CENTER SHAPE_ROTATION p r0 r1 r2)
              (edgeLinesOf (getPolygonPoints SIDES 180 200)) lit = true := by
    unfold isPuzzleSolvable allLitHit
    constructor
    · intro h
      rcases List.any_eq_true.mp h with ⟨r0, hr0, h⟩
      rcases List.any_eq_true.mp h with ⟨r1, hr1, h⟩
      rcases List.any_eq_true.mp h with ⟨r2, hr2, h⟩
      refine ⟨r0, r1, r2, List.mem_range.mp hr0, List.mem_range.mp hr1,
        List.mem_range.mp hr2, ?_⟩
      intro lit hlit
      exact List.any_eq_true.mp (List.all_eq_true.mp h lit hlit)
    · rintro ⟨r0, r1, r2, h0, h1, h2, hall⟩
      refine List.any_eq_true.mpr ⟨r0, List.mem_range.mpr h0, ?_⟩
      refine List.any_eq_true.mpr ⟨r1, List.mem_range.mpr h1, ?_⟩
      refine List.any_eq_true.mpr ⟨r2, List.mem_range.mpr h2, ?_⟩
      exact List.all_eq_true.mpr fun lit hlit => List.any_eq_true.mpr (hall lit hlit)
  refine ⟨hiff, fun hnil => hiff.mpr ⟨0, 0, 0, by norm_num, by norm_num, by norm_num, ?_⟩⟩
  intro lit hlit
  rw [hnil] at hlit
  cases hlit

/-- Witness for C1 at the empty-lit-edges puzzle. -/
theorem c1_isPuzzleSolvable_iff_rotation_exists_witness :
    isPuzzleSolvable ⟨[], []⟩ (getPolygonPoints SIDES 180 200) = true :=
  (c1_isPuzzleSolvable_iff_rotation_exists ⟨[], []⟩).2 rfl

end ClaimC1

section ClaimC2

/-- Computation rule of the scan step on the empty accumulator. -/
theorem minStep_none (c : ℝ × HitTag) : minStep none c = some c := rfl

/-- Computation rule of the scan step on a non-empty accumulator. -/
theorem minStep_some (a c : ℝ × HitTag) :
    minStep (some a) c = if c.1 < a.1 then some c else some a := rfl

/-- The running-minimum scan returns the initial accumulator or one of the
    scanned candidates. -/
theorem aux_minFold_mem :
    ∀ (l : List (ℝ × HitTag)) (acc : Option (ℝ × HitTag)) (m : ℝ × HitTag),
      l.foldl minStep acc = some m → acc = some m ∨ m ∈ l := by
  intro l
  induction l with
  | nil =>
      intro acc m h
      rw [List.foldl_nil] at h
      exact Or.inl h
  | cons c t ih =>
      intro acc m h
      rw [List.foldl_cons] at h
      rcases ih _ _ h with hacc | hmem
      · cases acc with
        | none =>
            rw [minStep_none] at hacc
            cases hacc
            exact Or.inr (List.mem_cons_self _ _)
        | some a =>
            rw [minStep_some] at hacc
            split at hacc
            · cases hacc
              exact Or.inr (List.mem_cons_self _ _)
            · cases hacc
              exact Or.inl rfl
      · exact Or.inr (List.mem_cons_of_mem _ hmem)

/-- The running-minimum scan is a lower bound of the accumulator and of
    every scanned candidate. -/
theorem aux_minFold_le :
    ∀ (l : List (ℝ × HitTag)) (acc : Option (ℝ × HitTag)) (m : ℝ × HitTag),
      l.foldl minStep acc = some m →
      (∀ a, acc = some a → m.1 ≤ a.1) ∧ ∀ c ∈ l, m.1 ≤ c.1 := by
  intro l
  induction l with
  | nil =>
      intro acc m h
      rw [List.foldl_nil] at h
      refine ⟨?_, ?_⟩
      · intro a ha
        rw [h] at ha
        cases ha
        exact le_refl _
      · intro c hc
        cases hc
  | cons c t ih =>
      intro acc m h
      rw [List.foldl_cons] at h
      have H := ih (minStep acc c) m h
      have hstep : ∃ b, minStep acc c = some b ∧ b.1 ≤ c.1 ∧
          ∀ a, acc = some a → b.1 ≤ a.1 := by
        cases acc with
        | none => exact ⟨c, rfl, le_refl _, fun a ha => by cases ha⟩
        | some a =>
            rw [minStep_some]
            by_cases hlt : c.1 < a.1
            · rw [if_pos hlt]
              refine ⟨c, rfl, le_refl _, ?_⟩
              intro a2 ha2
              cases ha2
              exact le_of_lt hlt
            · rw [if_neg hlt]
              refine ⟨a, rfl, le_of_not_lt hlt, ?_⟩
              intro a2 ha2
              cases ha2
              exact le_refl _
      rcases hstep with ⟨b, hb, hbc, hba⟩
      refine ⟨?_, ?_⟩
      · intro a ha
        exact le_trans (H.1 b hb) (hba a ha)
      · intro x hx
        rcases List.mem_cons.mp hx with rfl | hx
        · exact le_trans (H.1 b hb) hbc
        · exact H.2 x hx

/-- Claim C2: in the oracle's per-emitter ray cast, a same-ring blocker is a
    candidate only at the same-or-opposite slot, an other-ring blocker is
    always a candidate, every other emitter is a candidate with collision
    radius 13 > 12, the scan result attains the minimum ray parameter over
    the candidate list, and a lit edge counts as hit exactly when the
    nearest obstacle is that edge. -/
theorem c2_nearest_obstacle_ray_cast :
    (∀ (em : EmitterPt) (b : BlockerPt), b.idx = em.idx →
        areAtSamePosition b.originalAngle em.originalAngle = false →
        blockerCand em b = none) ∧
    (∀ (em : EmitterPt) (b : BlockerPt), b.idx ≠ em.idx →
        blockerCand em b = rayCircleT em.x em.y (dirX em) (dirY em) b.x b.y blockerRadius) ∧
    (∀ em other : EmitterPt, emitterCand em other =
        rayCircleT em.x em.y (dirX em) (dirY em) other.x other.y emitterRadius) ∧
    blockerRadius < emitterRadius ∧
    (∀ (em : EmitterPt) (selfIdx : ℕ) (emitters : List EmitterPt)
        (blockers : List BlockerPt) (edges : List (ℕ × (ℝ × ℝ) × (ℝ × ℝ))) (m : ℝ × HitTag),
        castRay em selfIdx emitters blockers edges = some m →
        m ∈ candList em selfIdx emitters blockers edges ∧
          ∀ c ∈ candList em selfIdx emitters blockers edges, m.1 ≤ c.1) ∧
    (∀ (em : EmitterPt) (selfIdx : ℕ) (emitters : List EmitterPt)
        (blockers : List BlockerPt) (edges : List (ℕ × (ℝ × ℝ) × (ℝ × ℝ))) (lit : ℕ),
        emitterHitsLit em selfIdx emitters blockers edges lit = true ↔
          ∃ t, castRay em selfIdx emitters blockers edges = some (t, HitTag.edgeTag lit)) := by
  refine ⟨?_, ?_, ?_, ?_, ?_, ?_⟩
  · intro em b hidx hsame
    unfold blockerCand
    rw [if_pos hidx, if_neg]
    rw [hsame]
    exact Bool.false_ne_true
  · intro em b hidx
    unfold blockerCand
    rw [if_neg hidx]
  · intro em other
    rfl
  · norm_num [blockerRadius, emitterRadius]
  · intro em selfIdx emitters blockers edges m h
    unfold castRay at h
    rcases aux_minFold_mem _ _ _ h with habs | hmem
    · cases habs
    · exact ⟨hmem, (aux_minFold_le _ _ _ h).2⟩
  · intro em selfIdx emitters blockers edges lit
    constructor
    · intro h
      unfold emitterHitsLit at h
      rcases hcr : castRay em selfIdx emitters blockers edges with _ | ⟨t, tag⟩
      · rw [hcr] at h
        exact absurd h (by simp)
      · rw [hcr] at h
        cases tag with
        | blockerTag => exact absurd h (by simp)
        | emitterTag => exact absurd h (by simp)
        | edgeTag i =>
            simp only [beq_iff_eq] at h
            subst h
            exact ⟨t, rfl⟩
    · rintro ⟨t, hcr⟩
      unfold emitterHitsLit
      rw [hcr]
      simp

/-- Witness for C2: a same-ring blocker at a non-aligned slot contributes no
    candidate, an other-ring blocker contributes the radius-12 circle test,
    and the two collision radii compare as claimed. -/
theorem c2_nearest_obstacle_ray_cast_witness :
    areAtSamePosition (45 : ℚ) 15 = false ∧
    blockerCand ⟨0, 195, 0, 0, 15⟩ ⟨0, 45, 0, 0, 45⟩ = none ∧
    blockerCand ⟨0, 195, 0, 0, 15⟩ ⟨1, 45, 0, 0, 45⟩ =
      rayCircleT 0 0 (dirX ⟨0, 195, 0, 0, 15⟩) (dirY ⟨0, 195, 0, 0, 15⟩) 0 0 blockerRadius ∧
    blockerRadius < emitterRadius := by
  have hsame : areAtSamePosition (45 : ℚ) 15 = false := by
    norm_num [areAtSamePosition, angleToPosition, jsModQ, jsRound, jsTrunc, Int.tmod]
  exact ⟨hsame,
    c2_nearest_obstacle_ray_cast.1 ⟨0, 195, 0, 0, 15⟩ ⟨0, 45, 0, 0, 45⟩ rfl hsame,
    c2_nearest_obstacle_ray_cast.2.1 ⟨0, 195, 0, 0, 15⟩ ⟨1, 45, 0, 0, 45⟩ (by decide),
    c2_nearest_obstacle_ray_cast.2.2.2.1⟩

end ClaimC2

section ClaimC10

/-- A left fold of `max` dominates its initial value and every element. -/
theorem aux_le_foldl_max (l : List ℕ) :
    ∀ b : ℕ, b ≤ l.foldl max b ∧ ∀ x ∈ l, x ≤ l.foldl max b := by
  induction l with
  | nil =>
      intro b
      exact ⟨le_refl _, fun x hx => by cases hx⟩
  | cons c t ih =>
      intro b
      rw [List.foldl_cons]
      refine ⟨le_trans (le_max_left b c) (ih (max b c)).1, ?_⟩
      intro x hx
      rcases List.mem_cons.mp hx with rfl | hx
      · exact le_trans (le_max_right b x) (ih (max b x)).1
      · exact (ih (max b c)).2 x hx

/-- A left fold of `max` is bounded by `max` of the initial value and the
    sum. -/
theorem aux_foldl_max_le_sum (l : List ℕ) : ∀ b : ℕ, l.foldl max b ≤ max b l.sum := by
  induction l with
  | nil =>
      intro b
      simp
  | cons c t ih =>
      intro b
      rw [List.foldl_cons, List.sum_cons]
      refine le_trans (ih (max b c)) ?_
      have h1 : max b c ≤ max b (c + t.sum) := by
        rcases max_choice b c with h | h <;> rw [h] <;> omega
      have h2 : t.sum ≤ c + t.sum := by omega
      rcases max_choice (max b c) t.sum with h | h <;> rw [h]
      · exact h1
      · exact le_trans h2 (le_max_right _ _)

/-- The minimum of a non-empty list is one of its elements. -/
theorem aux_listMin_mem : ∀ (l : List ℕ), l ≠ [] → listMin l ∈ l := by
  have key : ∀ (t : List ℕ) (x : ℕ), t.foldl min x ∈ x :: t := by
    intro t
    induction t with
    | nil =>
        intro x
        simp
    | cons y rest ih =>
        intro x
        rw [List.foldl_cons]
        have := ih (min x y)
        rcases List.mem_cons.mp this with heq | hmem
        · rw [heq]
          rcases min_choice x y with h | h <;> rw [h] <;> simp
        · exact List.mem_cons_of_mem _ (List.mem_cons_of_mem _ hmem)

  intro l hl
  match l, hl with
  | x :: rest, _ => exact key rest x

/-- The simplified distribution score lies in `[0, 1]`. -/
theorem aux_distribution_bounds (ch : Chromosome) :
    0 ≤ calculateDistributionScore ch ∧ calculateDistributionScore ch ≤ 1 := by
  by_cases h1 : (ch.circles.map (fun c => c.emitters.length)).sum = 0
  · unfold calculateDistributionScore
    rw [if_pos h1]
    norm_num
  · by_cases h2 : 0 <
        ((ch.circles.map (fun c => c.emitters.length)).filter (fun c => c == 0)).length
    · unfold calculateDistributionScore
      rw [if_neg h1, if_pos h2]
      norm_num
    · unfold calculateDistributionScore
      rw [if_neg h1, if_neg h2]
      have hne : ch.circles.map (fun c => c.emitters.length) ≠ [] := by
        intro hnil
        rw [hnil] at h1
        exact h1 rfl
      have hminmem := aux_listMin_mem _ hne
      have hminmax : listMin (ch.circles.map (fun c => c.emitters.length)) ≤
          listMax (ch.circles.map (fun c => c.emitters.length)) :=
        (aux_le_foldl_max _ 0).2 _ hminmem
      have hmaxsum : listMax (ch.circles.map (fun c => c.emitters.length)) ≤
          (ch.circles.map (fun c => c.emitters.length)).sum := by
        have := aux_foldl_max_le_sum (ch.circles.map (fun c => c.emitters.length)) 0
        simpa [listMax] using this
      have htotpos : 0 < (((ch.circles.map (fun c => c.emitters.length)).sum : ℕ) : ℚ) := by
        positivity
      have hq1 : ((listMin (ch.circles.map (fun c => c.emitters.length)) : ℕ) : ℚ) ≤
          ((listMax (ch.circles.map (fun c => c.emitters.length)) : ℕ) : ℚ) := by
        exact_mod_cast hminmax
      have hq2 : ((listMax (ch.circles.map (fun c => c.emitters.length)) : ℕ) : ℚ) ≤
          (((ch.circles.map (fun c => c.emitters.length)).sum : ℕ) : ℚ) := by
        exact_mod_cast hmaxsum
      have hq3 : (0 : ℚ) ≤ ((listMin (ch.circles.map (fun c => c.emitters.length)) : ℕ) : ℚ) := by
        positivity
      constructor
      · have hfrac1 : (((listMax (ch.circles.map (fun c => c.emitters.length)) : ℕ) : ℚ) -
            ((listMin (ch.circles.map (fun c => c.emitters.length)) : ℕ) : ℚ)) /
            (((ch.circles.map (fun c => c.emitters.length)).sum : ℕ) : ℚ) ≤ 1 := by
          rw [div_le_one htotpos]
          linarith
        linarith
      · have hfrac0 : 0 ≤ (((listMax (ch.circles.map (fun c => c.emitters.length)) : ℕ) : ℚ) -
            ((listMin (ch.circles.map (fun c => c.emitters.length)) : ℕ) : ℚ)) /
            (((ch.circles.map (fun c => c.emitters.length)).sum : ℕ) : ℚ) := by
          apply div_nonneg _ (le_of_lt htotpos)
          linarith
        linarith

/-- The step of the variety fold never increases the score. -/
theorem aux_variety_foldl_le (l : List ChromoCircle) :
    ∀ v0 : ℚ, l.foldl (fun v c => if 4 < c.emitters.length then v - 0.2 else v) v0 ≤ v0 := by
  induction l with
  | nil =>
      intro v0
      simp
  | cons c t ih =>
      intro v0
      rw [List.foldl_cons]
      refine le_trans (ih _) ?_
      split <;> norm_num

/-- The simplified variety score lies in `[0, 1]`. -/
theorem aux_variety_bounds (ch : Chromosome) :
    0 ≤ calculateVarietyScore ch ∧ calculateVarietyScore ch ≤ 1 := by
  unfold calculateVarietyScore
  refine ⟨le_max_left _ _, ?_⟩
  have hv := aux_variety_foldl_le ch.circles 1
  have hd0 : (0 : ℚ) ≤
      (((ch.circles.foldr (fun c acc => c.emitters ++ acc) []).dedup.length : ℚ) /
        ((ch.circles.foldr (fun c acc => c.emitters ++ acc) []).length : ℚ)) := by
    positivity
  have hd1 : (((ch.circles.foldr (fun c acc => c.emitters ++ acc) []).dedup.length : ℚ) /
      ((ch.circles.foldr (fun c acc => c.emitters ++ acc) []).length : ℚ)) ≤ 1 := by
    rcases Nat.eq_zero_or_pos (ch.circles.foldr (fun c acc => c.emitters ++ acc) []).length
      with hz | hpos
    · rw [hz]
      norm_num
    · rw [div_le_one (by exact_mod_cast hpos)]
      exact_mod_cast List.Sublist.length_le (List.dedup_sublist _)
  refine max_le (by norm_num) ?_
  by_cases hneg :
      (ch.circles.foldl (fun v c => if 4 < c.emitters.length then v - 0.2 else v) (1 : ℚ)) ≤ 0
  · have := mul_nonpos_of_nonpos_of_nonneg hneg hd0
    linarith
  · have hpos := lt_of_not_le hneg
    have hmul := mul_le_mul_of_nonneg_left hd1 (le_of_lt hpos)
    rw [mul_one] at hmul
    linarith

/-- The simplified aesthetic score lies in `[0, 1]`. -/
theorem aux_aesthetic_bounds (ch : Chromosome) :
    0 ≤ calculateAestheticScore ch ∧ calculateAestheticScore ch ≤ 1 := by
  unfold calculateAestheticScore
  refine ⟨le_min ?_ (by norm_num), min_le_right _ _⟩
  split
  · positivity
  · norm_num

/-- Claim C10: in the simplified generator, with every ring non-empty, a
    chromosome judged solvable scores at least 0.6, one judged unsolvable
    at most 0.5 (each sub-score lies in `[0,1]`), so every solvable
    chromosome outranks every unsolvable one; and `calculateFitness` is the
    formula applied to the oracle's verdict. -/
theorem c10_solvable_outranks_unsolvable (ch ch2 : Chromosome)
    (_h : ringsNonEmpty ch) (_h2 : ringsNonEmpty ch2) :
    0.6 ≤ calculateFitnessGiven true ch ∧
    calculateFitnessGiven false ch2 ≤ 0.5 ∧
    calculateFitnessGiven false ch2 < calculateFitnessGiven true ch ∧
    calculateFitness ch = calculateFitnessGiven (isChromosomeSolvable ch) ch := by
  have hd := aux_distribution_bounds ch
  have hv := aux_variety_bounds ch
  have ha := aux_aesthetic_bounds ch
  have hd2 := aux_distribution_bounds ch2
  have hv2 := aux_variety_bounds ch2
  have ha2 := aux_aesthetic_bounds ch2
  have hge : 0.6 ≤ calculateFitnessGiven true ch := by
    unfold calculateFitnessGiven
    rw [if_pos rfl]
    nlinarith [hd.1, hv.1, ha.1]
  have hle : calculateFitnessGiven false ch2 ≤ 0.5 := by
    unfold calculateFitnessGiven
    rw [if_neg (by simp)]
    nlinarith [hd2.2, hv2.2, ha2.2, hd2.1, hv2.1, ha2.1]
  exact ⟨hge, hle, by linarith, rfl⟩

/-- Witness for C10 at a concrete chromosome with one emitter per ring. -/
theorem c10_solvable_outranks_unsolvable_witness :
    0.6 ≤ calculateFitnessGiven true ⟨[0], [⟨[0], []⟩, ⟨[4], []⟩, ⟨[8], []⟩]⟩ ∧
    calculateFitnessGiven false ⟨[0], [⟨[0], []⟩, ⟨[4], []⟩, ⟨[8], []⟩]⟩ ≤ 0.5 ∧
    calculateFitnessGiven false ⟨[0], [⟨[0], []⟩, ⟨[4], []⟩, ⟨[8], []⟩]⟩ <
      calculateFitnessGiven true ⟨[0], [⟨[0], []⟩, ⟨[4], []⟩, ⟨[8], []⟩]⟩ ∧
    calculateFitness ⟨[0], [⟨[0], []⟩, ⟨[4], []⟩, ⟨[8], []⟩]⟩ =
      calculateFitnessGiven
        (isChromosomeSolvable ⟨[0], [⟨[0], []⟩, ⟨[4], []⟩, ⟨[8], []⟩]⟩)
        ⟨[0], [⟨[0], []⟩, ⟨[4], []⟩, ⟨[8], []⟩]⟩ :=
  c10_solvable_outranks_unsolvable
    ⟨[0], [⟨[0], []⟩, ⟨[4], []⟩, ⟨[8], []⟩]⟩
    ⟨[0], [⟨[0], []⟩, ⟨[4], []⟩, ⟨[8], []⟩]⟩
    (by intro c hc; fin_cases hc <;> simp)
    (by intro c hc; fin_cases hc <;> simp)

end ClaimC10

end Trespasser
